import Mathlib

/-!
Verification development for the dwarf-to-struct tool (src/main.rs, src/errors.rs).

The tool walks the DWARF Debugging Information Entry (DIE) tree of a shared
object, filters top-level class DIEs by a three-part search filter, removes
duplicates by name, and prints a C-like layout of each surviving class.

The embedding below models:
  * DIEs as a tree of tagged records with the attributes the program reads
    (DW_AT_name resolved to a string by the external gimli string expander,
    DW_AT_byte_size and DW_AT_data_member_location as their Udata payloads,
    DW_AT_type in its three relevant attribute forms);
  * the external gimli DIE cursor over the depth-first serialisation of the
    tree (next_dfs / next_sibling with depth deltas), on which the
    repository's EntryChildrenIterator is built;
  * the ContextEntry operations (tag, iter_children, name, size_bytes,
    member_location, class, expand_type_defs) and the dump_file pipeline.

Panics (.unwrap() on malformed data, explicit panic!) are modelled as
Except.error; the loops of the Rust code that have no structural termination
argument in the model (name resolution through pointer types, typedef
expansion) take an explicit fuel parameter, and running out of fuel is also
an Except.error, so an .ok result always corresponds to an actual run of the
program.
-/

set_option autoImplicit false

/-- DWARF tags used by the program (gimli::DW_TAG_*); all other tags are
collapsed into the `other` constructor since the program only compares tags
against the listed constants. -/
inductive Tag where
  | class_type
  | structure_type
  | union_type
  | enumeration_type
  | base_type
  | pointer_type
  | typedef
  | member
  | inheritance
  | compile_unit
  | other (code : Nat)
deriving DecidableEq, Repr

/-- The attribute forms of a DW_AT_type attribute that `ContextEntry::class`
distinguishes: a reference relative to the current compilation unit
(gimli::AttributeValue::UnitRef), a reference relative to the whole
.debug_info section (gimli::AttributeValue::DebugInfoRef), and every other
form (which makes the program panic). -/
inductive TypeRef where
  | unitRef (off : Nat)
  | debugInfoRef (off : Nat)
  | otherForm
deriving DecidableEq, Repr

mutual
/-- One DWARF Debugging Information Entry: its offset inside the compilation
unit, its tag, the attributes the program reads, and its children.
`name` holds the DW_AT_name string after expansion against the string
tables (done by the external decoder in `name_from_tag`); `byte_size` and
`member_location` hold the Udata payloads of DW_AT_byte_size and
DW_AT_data_member_location. -/
inductive Die where
  | mk (offset : Nat) (tag : Tag) (name : Option String) (byte_size : Option Nat)
       (member_location : Option Nat) (type_ref : Option TypeRef) (children : DieList)
/-- Children of a DIE, in document order. -/
inductive DieList where
  | nil
  | cons (head : Die) (tail : DieList)
end

def Die.offset : Die → Nat
  | .mk o _ _ _ _ _ _ => o

def Die.tag : Die → Tag
  | .mk _ t _ _ _ _ _ => t

def Die.nameAttr : Die → Option String
  | .mk _ _ n _ _ _ _ => n

def Die.byteSizeAttr : Die → Option Nat
  | .mk _ _ _ b _ _ _ => b

def Die.memberLocationAttr : Die → Option Nat
  | .mk _ _ _ _ m _ _ => m

def Die.typeRefAttr : Die → Option TypeRef
  | .mk _ _ _ _ _ r _ => r

def Die.children : Die → DieList
  | .mk _ _ _ _ _ _ c => c

def DieList.toList : DieList → List Die
  | .nil => []
  | .cons d ds => d :: ds.toList

mutual
/-- Depth-first serialisation of a DIE subtree, each entry paired with its
depth.  This is the order in which the DWARF encoding stores DIEs and in
which the gimli cursor walks them. -/
def flattenD (d : Nat) : Die → List (Nat × Die)
  | .mk o t n b m r cs => (d, .mk o t n b m r cs) :: flattenF (d + 1) cs
/-- Depth-first serialisation of a forest of sibling DIEs. -/
def flattenF (d : Nat) : DieList → List (Nat × Die)
  | .nil => []
  | .cons c cs => flattenD d c ++ flattenF d cs
end

/-- Model of the external gimli::EntriesCursor: the DIE it is positioned on,
that DIE's depth, and the remaining depth-first serialisation of the unit
strictly after the current DIE. -/
structure Cursor where
  curDepth : Nat
  curDie : Die
  rest : List (Nat × Die)

/-- gimli's EntriesCursor::next_dfs: step to the next DIE of the depth-first
serialisation and report the depth delta relative to the previous position.
Returns none at the end of the unit. -/
def Cursor.next_dfs (c : Cursor) : Option (Int × Cursor) :=
  match c.rest with
  | [] => none
  | (d, e) :: r => some ((d : Int) - (c.curDepth : Int), ⟨d, e, r⟩)

/-- Helper for next_sibling: drop serialised entries strictly deeper than
depth `d` (the current DIE's subtree), returning the first entry at depth
at most `d` together with the entries after it. -/
def skipDeeper (d : Nat) : List (Nat × Die) → Option (Nat × Die × List (Nat × Die))
  | [] => none
  | (d2, e) :: r => if d2 ≤ d then some (d2, e, r) else skipDeeper d r

/-- gimli's EntriesCursor::next_sibling: skip the current DIE's subtree; if
the next DIE at depth at most the current one is at exactly the current
depth it is the next sibling, otherwise the parent's child list is
exhausted and the result is none. -/
def Cursor.next_sibling (c : Cursor) : Option Cursor :=
  match skipDeeper c.curDepth c.rest with
  | some (d, e, r) => if d = c.curDepth then some ⟨d, e, r⟩ else none
  | none => none

/-- The repeated `next_sibling` tail of EntryChildrenIterator, with explicit
fuel.  Each successful step strictly shortens `rest`, so fuel equal to the
length of `rest` never cuts the iteration short (see `siblings_spec`). -/
def siblingsAux : Nat → Cursor → List Die
  | 0, _ => []
  | fuel + 1, c =>
    match c.next_sibling with
    | none => []
    | some c2 => c2.curDie :: siblingsAux fuel c2

/-- EntryChildrenIterator (src/main.rs:306-335): the first advance is one
`next_dfs` step whose result is kept only when the depth delta is exactly
+1; every later advance is a `next_sibling` step; iteration ends at the
first `None`. The list below is everything the iterator yields. -/
def entryChildren (c : Cursor) : List Die :=
  match c.next_dfs with
  | some (delta, c2) => if delta = 1 then c2.curDie :: siblingsAux c2.rest.length c2 else []
  | none => []

/-- A compilation unit: its offset range inside .debug_info (used by
gimli's DebugInfoOffset::to_unit_offset) and its root DIE (the
DW_TAG_compile_unit DIE). Plays the role of gimli::Unit. -/
structure CompUnit where
  start : Nat
  size : Nat
  root : Die

/-- gimli's DebugInfoOffset::to_unit_offset: translate a .debug_info-relative
offset into an offset local to this unit, if the offset falls inside the
unit's range. -/
def CompUnit.toUnitOffset (u : CompUnit) (off : Nat) : Option Nat :=
  if u.start ≤ off ∧ off < u.start + u.size then some (off - u.start) else none

/-- Find the serialised DIE with the given unit-local offset and build the
cursor positioned on it. -/
def findCursor (off : Nat) : List (Nat × Die) → Option Cursor
  | [] => none
  | (d, e) :: r => if e.offset = off then some ⟨d, e, r⟩ else findCursor off r

/-- gimli's Unit::entries_at_offset followed by the one asserted `next_dfs`
of the repository code: the cursor positioned on the DIE at the given
unit-local offset.  An offset that is not the start of a DIE is a decode
error (the repository unwraps it, aborting the run). -/
def CompUnit.cursorAtOffset (u : CompUnit) (off : Nat) : Option Cursor :=
  findCursor off (flattenD 0 u.root)

/-- gimli's Unit::entry: the single DIE at the given unit-local offset. -/
def CompUnit.entryAt (u : CompUnit) (off : Nat) : Option Die :=
  (u.cursorAtOffset off).map (fun c => c.curDie)

/-- gimli's Unit::entries positioned by the one asserted `next_dfs` of
DwarfUnit::iter: the cursor on the root DIE of the unit. -/
def CompUnit.rootCursor (u : CompUnit) : Cursor :=
  ⟨0, u.root, flattenF 1 u.root.children⟩

/-- ContextEntry (src/main.rs:69-85): a DIE together with the list of all
compilation units (for .debug_info-relative references) and its home unit
(for unit-relative references).  The Dwarf string-table handle is not
modelled: DW_AT_name strings are stored already expanded. -/
structure ContextEntry where
  units : List CompUnit
  unit : CompUnit
  entry : Die

/-- ContextEntry::tag. -/
def ContextEntry.tag (e : ContextEntry) : Tag :=
  e.entry.tag

/-- ContextEntry::iter_children (src/main.rs:125-134): re-enter the decoder
at the entry's own offset, assert the first `next_dfs`, and run
EntryChildrenIterator, wrapping each yielded DIE in the same ambient
context.  A failing `entries_at_offset` is unwrapped in the source and
aborts the run. -/
def ContextEntry.iter_children (e : ContextEntry) : Except String (List ContextEntry) :=
  match e.unit.cursorAtOffset e.entry.offset with
  | some c => .ok ((entryChildren c).map (fun d => { e with entry := d }))
  | none => .error "entries_at_offset failed"

/-- std::mem::size_of::<usize>() on the 64-bit host the program targets. -/
def usize_bytes : Nat := 8

/-- One more than the largest usize value on the 64-bit host.  Additions in
usize are reduced modulo this: a release build wraps on overflow, a debug
build aborts at the same input, so the unreduced sum is only the printed
value when it stays below this bound. -/
def usizeModulus : Nat := 2 ^ 64

/-- ContextEntry::size_bytes (src/main.rs:168-194): the DW_AT_byte_size
payload if present, otherwise the host pointer width for a
DW_TAG_pointer_type, otherwise absent. -/
def ContextEntry.size_bytes (e : ContextEntry) : Option Nat :=
  match e.entry.byteSizeAttr with
  | some n => some n
  | none => if e.tag = Tag.pointer_type then some usize_bytes else none

/-- ContextEntry::member_location (src/main.rs:287-303): the
DW_AT_data_member_location payload, absent if not present. -/
def ContextEntry.member_location (e : ContextEntry) : Option Nat :=
  e.entry.memberLocationAttr

/-- ContextEntry::name_from_tag (src/main.rs:198-210): the DW_AT_name
attribute expanded against the string tables (expansion itself is done by
the external decoder and is pre-applied in the model). -/
def ContextEntry.name_from_tag (e : ContextEntry) : Option String :=
  e.entry.nameAttr

/-- ContextEntry::class (src/main.rs:228-275), named classOf here because
`class` is a Lean keyword: follow the DW_AT_type attribute.  A UnitRef is
looked up in the current unit with unchanged ambient context; a
DebugInfoRef is translated by the first unit that accepts the offset and
the home unit of the result becomes that unit; no accepting unit, a failed
lookup, or any other attribute form panics. -/
def ContextEntry.classOf (e : ContextEntry) : Except String (Option ContextEntry) :=
  match e.entry.typeRefAttr with
  | none => .ok none
  | some (TypeRef.unitRef off) =>
    match e.unit.entryAt off with
    | some d => .ok (some { e with entry := d })
    | none => .error "unit.entry(offset) failed"
  | some (TypeRef.debugInfoRef off) =>
    match e.units.findSome? (fun u => (u.toUnitOffset off).map (fun loc => (u, loc))) with
    | some (u, loc) =>
      match u.entryAt loc with
      | some d => .ok (some { units := e.units, unit := u, entry := d })
      | none => .error "unit.entry(offset) failed"
    | none => .error "Could not find offset in any CU"
  | some TypeRef.otherForm => .error "Invalid AttributeValue for type"

/-- ContextEntry::name (src/main.rs:213-225): first the direct DW_AT_name
attribute, then, for a DW_TAG_pointer_type, the pointee's name with a
trailing asterisk.  The recursion through the pointee has no structural
bound in the model, so it is given fuel; exhausted fuel is an error, never
a silently absent name. -/
def ContextEntry.nameF : Nat → ContextEntry → Except String (Option String)
  | 0, _ => .error "out of fuel in name()"
  | fuel + 1, e =>
    match e.name_from_tag with
    | some s => .ok (some s)
    | none =>
      if e.tag = Tag.pointer_type then
        match e.classOf with
        | .error msg => .error msg
        | .ok none => .ok none
        | .ok (some pointee) =>
          match ContextEntry.nameF fuel pointee with
          | .error msg => .error msg
          | .ok none => .ok none
          | .ok (some s) => .ok (some (s ++ "*"))
      else .ok none

/-- ContextEntry::expand_type_defs (src/main.rs:278-284): follow class()
while the tag is DW_TAG_typedef; the unwrap on a typedef without a
DW_AT_type is a panic.  Fuel bounds the chain length. -/
def ContextEntry.expandTypeDefsF : Nat → ContextEntry → Except String ContextEntry
  | 0, _ => .error "out of fuel in expand_type_defs()"
  | fuel + 1, e =>
    if e.tag = Tag.typedef then
      match e.classOf with
      | .error msg => .error msg
      | .ok none => .error "unwrap on None (typedef without DW_AT_type)"
      | .ok (some e2) => ContextEntry.expandTypeDefsF fuel e2
    else .ok e

/-- SearchFilter (src/main.rs:33-45). -/
structure SearchFilter where
  class_name : Option String
  base_class_name : Option String
  contained_class_name : Option String

/-- The class-name sub-filter (src/main.rs:345-354): accept all when absent,
otherwise the entry's own name must equal the requested value (an absent
name never matches). -/
def passName (fuel : Nat) (filt : Option String) (e : ContextEntry) : Except String Bool :=
  match filt with
  | none => .ok true
  | some req =>
    match e.nameF fuel with
    | .error msg => .error msg
    | .ok n => .ok ((n.map (fun s => decide (s = req))).getD false)

/-- The `any` loop of the base-class sub-filter over
iter_base_classes (src/main.rs:141-152, 355-363): children with tag
DW_TAG_inheritance, each followed through class() (entries whose class()
is absent are dropped by the filter_map), matched by name, with the
short-circuit of Iterator::any. -/
def anyBaseMatches (fuel : Nat) (req : String) : List ContextEntry → Except String Bool
  | [] => .ok false
  | c :: rest =>
    if c.tag = Tag.inheritance then
      match c.classOf with
      | .error msg => .error msg
      | .ok none => anyBaseMatches fuel req rest
      | .ok (some base) =>
        match base.nameF fuel with
        | .error msg => .error msg
        | .ok n => if n = some req then .ok true else anyBaseMatches fuel req rest
    else anyBaseMatches fuel req rest

/-- The base-class sub-filter (src/main.rs:355-363). -/
def passBase (fuel : Nat) (filt : Option String) (e : ContextEntry) : Except String Bool :=
  match filt with
  | none => .ok true
  | some req =>
    match e.iter_children with
    | .error msg => .error msg
    | .ok children => anyBaseMatches fuel req children

/-- The `any` loop of the contained-class sub-filter over
iter_class_members (src/main.rs:154-165, 364-373): children with tag
DW_TAG_member carrying a DW_AT_data_member_location, each followed one
step through class() (absent class() dropped by the filter_map) and
matched by name — with no typedef expansion — with the short-circuit of
Iterator::any. -/
def anyMemberMatches (fuel : Nat) (req : String) : List ContextEntry → Except String Bool
  | [] => .ok false
  | c :: rest =>
    if c.tag = Tag.member ∧ c.member_location.isSome then
      match c.classOf with
      | .error msg => .error msg
      | .ok none => anyMemberMatches fuel req rest
      | .ok (some cls) =>
        match cls.nameF fuel with
        | .error msg => .error msg
        | .ok n => if n = some req then .ok true else anyMemberMatches fuel req rest
    else anyMemberMatches fuel req rest

/-- The contained-class sub-filter (src/main.rs:364-373). -/
def passContains (fuel : Nat) (filt : Option String) (e : ContextEntry) : Except String Bool :=
  match filt with
  | none => .ok true
  | some req =>
    match e.iter_children with
    | .error msg => .error msg
    | .ok children => anyMemberMatches fuel req children

/-- Iterator::filter over a fallible predicate: a predicate panic aborts the
run (the set of predicate evaluations is the same as in the lazy Rust
iterator chain: every element reaching this stage is evaluated once). -/
def filterExcept {α : Type} (p : α → Except String Bool) : List α → Except String (List α)
  | [] => .ok []
  | x :: xs =>
    match p x with
    | .error msg => .error msg
    | .ok b =>
      match filterExcept p xs with
      | .error msg => .error msg
      | .ok rest => .ok (if b then x :: rest else rest)

/-- Itertools::unique_by keyed on ContextEntry::name (src/main.rs:374): keep
an element only when its key — the full Option<String>, so also the absent
name — has not been produced before. -/
def uniqueByNameAux (fuel : Nat) : List (Option String) → List ContextEntry →
    Except String (List ContextEntry)
  | _, [] => .ok []
  | seen, e :: rest =>
    match e.nameF fuel with
    | .error msg => .error msg
    | .ok k =>
      if k ∈ seen then uniqueByNameAux fuel seen rest
      else
        match uniqueByNameAux fuel (k :: seen) rest with
        | .error msg => .error msg
        | .ok r => .ok (e :: r)

/-- Fallible map over a list, stopping at the first error, as the printing
for_each of dump_file does. -/
def mapExcept {α β : Type} (f : α → Except String β) : List α → Except String (List β)
  | [] => .ok []
  | x :: xs =>
    match f x with
    | .error msg => .error msg
    | .ok y =>
      match mapExcept f xs with
      | .error msg => .error msg
      | .ok ys => .ok (y :: ys)

/-- DwarfUnits::iter + DwarfUnit::iter (src/main.rs:96-121): every top-level
DIE (child of the unit root) of every unit, in unit order, wrapped with
the full unit list and its home unit. -/
def pipelineCandidates (units : List CompUnit) : List ContextEntry :=
  (units.map (fun u => (entryChildren u.rootCursor).map
    (fun d => ContextEntry.mk units u d))).flatten

/-- The first two filters of dump_file (src/main.rs:343-344): keep
DW_TAG_class_type entries that have a size. -/
def pipelineSized (units : List CompUnit) : List ContextEntry :=
  ((pipelineCandidates units).filter (fun e => decide (e.tag = Tag.class_type))).filter
    (fun e => e.size_bytes.isSome)

/-- The three user filters of dump_file (src/main.rs:345-373), in source
order: class name, base class, contained member class. -/
def pipelineFiltered (fuel : Nat) (sf : SearchFilter) (units : List CompUnit) :
    Except String (List ContextEntry) :=
  match filterExcept (passName fuel sf.class_name) (pipelineSized units) with
  | .error msg => .error msg
  | .ok l1 =>
    match filterExcept (passBase fuel sf.base_class_name) l1 with
    | .error msg => .error msg
    | .ok l2 => filterExcept (passContains fuel sf.contained_class_name) l2

/-- The survivors that dump_file actually prints: the filtered entries after
unique_by on the name (src/main.rs:374). -/
def pipelinePrinted (fuel : Nat) (sf : SearchFilter) (units : List CompUnit) :
    Except String (List ContextEntry) :=
  match pipelineFiltered fuel sf units with
  | .error msg => .error msg
  | .ok l => uniqueByNameAux fuel [] l

/-- The declared type of a printed field (src/main.rs:395):
child.class().unwrap().expand_type_defs(); the unwrap on a child without a
DW_AT_type is a panic. -/
def fieldDeclaredType (fuel : Nat) (child : ContextEntry) : Except String ContextEntry :=
  match child.classOf with
  | .error msg => .error msg
  | .ok none => .error "unwrap on None (field without DW_AT_type)"
  | .ok (some cls) => cls.expandTypeDefsF fuel

/-- One printed field line (src/main.rs:394-422): type name (or
unknown_class), field name (_base_class for an inheritance child,
unknown_name for a nameless member), size (or 0), and the two offsets:
the start, and the end computed by the usize addition
field_start + field_size of src/main.rs:414 — so reduced modulo 2^64,
the wrap-around a release build performs on overflow (a debug build
aborts at the same input, so in neither profile is the unreduced sum
printed once it reaches 2^64).  All numbers are rendered base-10 by
toString. -/
def renderField (fuel : Nat) (child : ContextEntry) : Except String String :=
  match fieldDeclaredType fuel child with
  | .error msg => .error msg
  | .ok cls =>
    match cls.nameF fuel with
    | .error msg => .error msg
    | .ok clsName =>
      match (if child.tag = Tag.inheritance then .ok (some "_base_class")
             else child.nameF fuel : Except String (Option String)) with
      | .error msg => .error msg
      | .ok fieldName =>
        match child.member_location with
        | none => .error "unwrap on None (member_location)"
        | some fieldStart =>
          .ok ("    " ++ clsName.getD "unknown_class" ++ " "
            ++ (if child.tag = Tag.inheritance then "_base_class"
                else fieldName.getD "unknown_name")
            ++ "; // " ++ toString (cls.size_bytes.getD 0) ++ " bytes, "
            ++ toString fieldStart ++ "-"
            ++ toString ((fieldStart + cls.size_bytes.getD 0) % usizeModulus))

/-- The block printed for one surviving class (src/main.rs:376-426): header
with the unwrapped name and size (both panics when absent), one line per
member or inheritance child carrying a DW_AT_data_member_location, and the
closing brace. -/
def printClass (fuel : Nat) (e : ContextEntry) : Except String (List String) :=
  match e.nameF fuel with
  | .error msg => .error msg
  | .ok none => .error "unwrap on None (class without a name)"
  | .ok (some name) =>
    match e.size_bytes with
    | none => .error "unwrap on None (class without a size)"
    | some sz =>
      match e.iter_children with
      | .error msg => .error msg
      | .ok children =>
        match mapExcept (renderField fuel)
          (children.filter (fun c =>
            decide ((c.tag = Tag.member ∨ c.tag = Tag.inheritance)
              ∧ c.member_location.isSome))) with
        | .error msg => .error msg
        | .ok lines =>
          .ok (("struct " ++ name ++ " \x7b // " ++ toString sz ++ " bytes") :: lines
            ++ ["\x7d;"])

/-- dump_file (src/main.rs:337-429): one block of output lines per surviving
class, in order.  The blank line printed between successive classes is a
joining artefact and carries no information beyond the block list. -/
def dump_file (fuel : Nat) (sf : SearchFilter) (units : List CompUnit) :
    Except String (List (List String)) :=
  match pipelinePrinted fuel sf units with
  | .error msg => .error msg
  | .ok l => mapExcept (printClass fuel) l

/-- The error enum of src/errors.rs. -/
inductive ProgError where
  | noHomeDirectoryFound
  | ioError (msg : String)
  | elfError (msg : String)
  | dwarfError (msg : String)
deriving DecidableEq, Repr

/-- The fixed default path built under the home directory
(src/main.rs:437-445); PathBuf::push inserts the separator. -/
def defaultSharedObjectPath (home : String) : String :=
  home ++ "/.steam/steam/steamapps/common/Stardew Valley/libcoreclr.so"

/-- The shared-object path selection of main (src/main.rs:434-446): the
--shared-object argument if given; otherwise the HOME environment variable
must exist and the fixed relative path is appended to it, and a missing
HOME is the dedicated NoHomeDirectoryFound error. -/
def resolveSharedObjectPath (cliPath : Option String) (env : String → Option String) :
    Except ProgError String :=
  match cliPath with
  | some p => .ok p
  | none =>
    match env "HOME" with
    | some home => .ok (defaultSharedObjectPath home)
    | none => .error ProgError.noHomeDirectoryFound

/-- A typedef chain in the sense of the specification: the list collects the
entries reached from the start by one class() step per DW_TAG_typedef, and
the final entry is the first one whose tag is not DW_TAG_typedef. -/
inductive TypedefChain : ContextEntry → List ContextEntry → ContextEntry → Prop where
  | done (e : ContextEntry) : e.tag ≠ Tag.typedef → TypedefChain e [] e
  | step (e e2 last : ContextEntry) (l : List ContextEntry) :
      e.tag = Tag.typedef → e.classOf = .ok (some e2) →
      TypedefChain e2 l last → TypedefChain e (e2 :: l) last

/-- A serialisation suffix starts at depth at most `d` (or is empty): the
shape of whatever follows a DIE's subtree in the depth-first serialisation
of its unit. -/
abbrev HeadLe : List (Nat × Die) → Nat → Prop
  | [], _ => True
  | p :: _, d => p.1 ≤ d

/-- Fixture unit X: two same-named classes, the first bare, the second with a
base class B and a member of class C; B and C are further top-level DIEs of
the same unit. -/
def dieB : Die := Die.mk 40 Tag.class_type (some "B") (some 4) none none DieList.nil

def dieC : Die := Die.mk 50 Tag.class_type (some "C") (some 4) none none DieList.nil

def dieX1 : Die := Die.mk 10 Tag.class_type (some "X") (some 8) none none DieList.nil

def dieXinh : Die :=
  Die.mk 21 Tag.inheritance none none (some 0) (some (TypeRef.unitRef 40)) DieList.nil

def dieXz : Die :=
  Die.mk 22 Tag.member (some "z") none (some 4) (some (TypeRef.unitRef 50)) DieList.nil

def dieX2 : Die := Die.mk 20 Tag.class_type (some "X") (some 8) none none
  (DieList.cons dieXinh (DieList.cons dieXz DieList.nil))

def rootX : Die := Die.mk 0 Tag.compile_unit none none none none
  (DieList.cons dieX1 (DieList.cons dieX2 (DieList.cons dieB (DieList.cons dieC DieList.nil))))

def cuX : CompUnit := ⟨0, 100, rootX⟩

def eX1 : ContextEntry := ⟨[cuX], cuX, dieX1⟩

def eX2 : ContextEntry := ⟨[cuX], cuX, dieX2⟩

def eXz : ContextEntry := ⟨[cuX], cuX, dieXz⟩

/-- Fixture unit Anon: two top-level sized class DIEs with no DW_AT_name. -/
def dieAnon1 : Die := Die.mk 10 Tag.class_type none (some 4) none none DieList.nil

def dieAnon2 : Die := Die.mk 20 Tag.class_type none (some 8) none none DieList.nil

def rootAnon : Die := Die.mk 0 Tag.compile_unit none none none none
  (DieList.cons dieAnon1 (DieList.cons dieAnon2 DieList.nil))

def cuAnon : CompUnit := ⟨0, 100, rootAnon⟩

def eAnon1 : ContextEntry := ⟨[cuAnon], cuAnon, dieAnon1⟩

def eAnon2 : ContextEntry := ⟨[cuAnon], cuAnon, dieAnon2⟩

/-- Fixture unit TD: a class Foo whose only data member's type is the typedef
Alias of the base type C, plus a second typedef Alias2 chaining to Alias. -/
def dieTDm : Die :=
  Die.mk 11 Tag.member (some "m") none (some 0) (some (TypeRef.unitRef 30)) DieList.nil

def dieTDm2 : Die :=
  Die.mk 12 Tag.member (some "m2") none (some 4) (some (TypeRef.unitRef 50)) DieList.nil

def dieFoo : Die := Die.mk 10 Tag.class_type (some "Foo") (some 8) none none
  (DieList.cons dieTDm (DieList.cons dieTDm2 DieList.nil))

def dieAlias : Die :=
  Die.mk 30 Tag.typedef (some "Alias") none none (some (TypeRef.unitRef 40)) DieList.nil

def dieCBase : Die := Die.mk 40 Tag.base_type (some "C") (some 4) none none DieList.nil

def dieAlias2 : Die :=
  Die.mk 50 Tag.typedef (some "Alias2") none none (some (TypeRef.unitRef 30)) DieList.nil

def rootTD : Die := Die.mk 0 Tag.compile_unit none none none none
  (DieList.cons dieFoo (DieList.cons dieAlias (DieList.cons dieCBase
    (DieList.cons dieAlias2 DieList.nil))))

def cuTD : CompUnit := ⟨0, 100, rootTD⟩

def eTDm : ContextEntry := ⟨[cuTD], cuTD, dieTDm⟩

def eTDm2 : ContextEntry := ⟨[cuTD], cuTD, dieTDm2⟩

def eAlias : ContextEntry := ⟨[cuTD], cuTD, dieAlias⟩

def eAlias2 : ContextEntry := ⟨[cuTD], cuTD, dieAlias2⟩

def eCBase : ContextEntry := ⟨[cuTD], cuTD, dieCBase⟩

/-- Fixture unit Ptr: a member whose type is a pointer_type carrying its own
DW_AT_name, and a member whose type is an anonymous pointer_type to Node. -/
def diePtrM : Die :=
  Die.mk 11 Tag.member (some "next") none (some 0) (some (TypeRef.unitRef 30)) DieList.nil

def dieNClass : Die := Die.mk 10 Tag.class_type (some "N") (some 8) none none
  (DieList.cons diePtrM DieList.nil)

def dieNamedPtr : Die :=
  Die.mk 30 Tag.pointer_type (some "NamedPtr") none none (some (TypeRef.unitRef 40)) DieList.nil

def dieT : Die := Die.mk 40 Tag.class_type (some "T") (some 4) none none DieList.nil

def dieNodeM : Die :=
  Die.mk 51 Tag.member (some "nxt") none (some 0) (some (TypeRef.unitRef 60)) DieList.nil

def dieNode : Die := Die.mk 50 Tag.class_type (some "Node") (some 8) none none
  (DieList.cons dieNodeM DieList.nil)

def dieAnonPtr : Die :=
  Die.mk 60 Tag.pointer_type none none none (some (TypeRef.unitRef 50)) DieList.nil

def diePtrTd : Die :=
  Die.mk 70 Tag.typedef (some "PtrAlias") none none (some (TypeRef.unitRef 60)) DieList.nil

def dieHolderInh : Die :=
  Die.mk 81 Tag.inheritance none none (some 0) (some (TypeRef.unitRef 70)) DieList.nil

def dieHolder : Die := Die.mk 80 Tag.class_type (some "Holder") (some 8) none none
  (DieList.cons dieHolderInh DieList.nil)

def dieOvfM : Die :=
  Die.mk 90 Tag.member (some "ovf") none (some (2 ^ 64 - 4)) (some (TypeRef.unitRef 60))
    DieList.nil

def dieUnnamedM : Die :=
  Die.mk 95 Tag.member none none (some 0) (some (TypeRef.unitRef 60)) DieList.nil

def rootPtr : Die := Die.mk 0 Tag.compile_unit none none none none
  (DieList.cons dieNClass (DieList.cons dieNamedPtr (DieList.cons dieT
    (DieList.cons dieNode (DieList.cons dieAnonPtr (DieList.cons diePtrTd
      (DieList.cons dieHolder (DieList.cons dieOvfM
        (DieList.cons dieUnnamedM DieList.nil)))))))))

def cuPtr : CompUnit := ⟨0, 100, rootPtr⟩

def ePtrM : ContextEntry := ⟨[cuPtr], cuPtr, diePtrM⟩

def eNodeM : ContextEntry := ⟨[cuPtr], cuPtr, dieNodeM⟩

def eNamedPtr : ContextEntry := ⟨[cuPtr], cuPtr, dieNamedPtr⟩

def eT : ContextEntry := ⟨[cuPtr], cuPtr, dieT⟩

def eNode : ContextEntry := ⟨[cuPtr], cuPtr, dieNode⟩

def eAnonPtr : ContextEntry := ⟨[cuPtr], cuPtr, dieAnonPtr⟩

def eHolderInh : ContextEntry := ⟨[cuPtr], cuPtr, dieHolderInh⟩

def eOvfM : ContextEntry := ⟨[cuPtr], cuPtr, dieOvfM⟩

def eUnnamedM : ContextEntry := ⟨[cuPtr], cuPtr, dieUnnamedM⟩

/-- Fixture pair of units for cross-unit references: unit A holds members
whose DW_AT_type is a .debug_info-relative reference; unit B holds the
referenced class. -/
def dieFarRef : Die :=
  Die.mk 10 Tag.member (some "far") none (some 0) (some (TypeRef.debugInfoRef 150)) DieList.nil

def dieBadForm : Die :=
  Die.mk 11 Tag.member (some "bad") none (some 0) (some TypeRef.otherForm) DieList.nil

def dieNoFit : Die :=
  Die.mk 12 Tag.member (some "nofit") none (some 0) (some (TypeRef.debugInfoRef 999)) DieList.nil

def rootA : Die := Die.mk 0 Tag.compile_unit none none none none
  (DieList.cons dieFarRef (DieList.cons dieBadForm (DieList.cons dieNoFit DieList.nil)))

def dieFar : Die := Die.mk 50 Tag.class_type (some "Far") (some 4) none none DieList.nil

def rootB : Die := Die.mk 0 Tag.compile_unit none none none none
  (DieList.cons dieFar DieList.nil)

def cuA : CompUnit := ⟨0, 100, rootA⟩

def cuB : CompUnit := ⟨100, 100, rootB⟩

def eFarRef : ContextEntry := ⟨[cuA, cuB], cuA, dieFarRef⟩

def eBadForm : ContextEntry := ⟨[cuA, cuB], cuA, dieBadForm⟩

def eNoFit : ContextEntry := ⟨[cuA, cuB], cuA, dieNoFit⟩

/-- Small tree for exercising the children iterator: a parent whose first
child has a child of its own. -/
def dieGrandchild : Die := Die.mk 72 Tag.member none none none none DieList.nil

def dieChild1 : Die := Die.mk 71 Tag.member none none none none
  (DieList.cons dieGrandchild DieList.nil)

def dieChild2 : Die := Die.mk 73 Tag.member none none none none DieList.nil

def dieParent : Die := Die.mk 70 Tag.class_type none none none none
  (DieList.cons dieChild1 (DieList.cons dieChild2 DieList.nil))

def dieAfter : Die := Die.mk 99 Tag.member none none none none DieList.nil

def sfNone : SearchFilter := ⟨none, none, none⟩

def sfNameX : SearchFilter := ⟨some "X", none, none⟩

def sfBaseB : SearchFilter := ⟨none, some "B", none⟩

def sfContainsC : SearchFilter := ⟨none, none, some "C"⟩

def sfAllXBC : SearchFilter := ⟨some "X", some "B", some "C"⟩

def sfContainsAlias : SearchFilter := ⟨none, none, some "Alias"⟩

/-- The block dump_file prints for the first, bare class X of fixture unit X. -/
def blockX1 : List String := ["struct X \x7b // 8 bytes", "\x7d;"]

/-- The block dump_file prints for the second class X of fixture unit X. -/
def blockX2 : List String :=
  ["struct X \x7b // 8 bytes",
   "    B _base_class; // 4 bytes, 0-4",
   "    C z; // 4 bytes, 4-8",
   "\x7d;"]

theorem flattenD_eq (d : Nat) (t : Die) :
    flattenD d t = (d, t) :: flattenF (d + 1) t.children := by
  cases t with
  | mk o tg n b m r cc => rfl

mutual
theorem flattenD_depth_le (d : Nat) (t : Die) : ∀ p ∈ flattenD d t, d ≤ p.1 := by
  cases t with
  | mk o tg n b m r cc =>
    intro p hp
    simp only [flattenD, List.mem_cons] at hp
    rcases hp with h | h
    · subst h; exact Nat.le_refl d
    · exact Nat.le_of_succ_le (flattenF_depth_le (d + 1) cc p h)
theorem flattenF_depth_le (d : Nat) (ts : DieList) : ∀ p ∈ flattenF d ts, d ≤ p.1 := by
  cases ts with
  | nil => intro p hp; simp [flattenF] at hp
  | cons c cs =>
    intro p hp
    simp only [flattenF, List.mem_append] at hp
    rcases hp with h | h
    · exact flattenD_depth_le d c p h
    · exact flattenF_depth_le d cs p h
end

theorem flattenF_length_le (d : Nat) (ts : DieList) :
    ts.toList.length ≤ (flattenF d ts).length := by
  cases ts with
  | nil => simp [flattenF, DieList.toList]
  | cons c cs =>
    have ih := flattenF_length_le d cs
    simp only [flattenF, DieList.toList, List.length_cons, List.length_append, flattenD_eq]
    omega

theorem skipDeeper_cons (d d2 : Nat) (e : Die) (r : List (Nat × Die)) :
    skipDeeper d ((d2, e) :: r) = if d2 ≤ d then some (d2, e, r) else skipDeeper d r := rfl

theorem skipDeeper_append_deeper (d : Nat) (l b : List (Nat × Die))
    (h : ∀ p ∈ l, d < p.1) : skipDeeper d (l ++ b) = skipDeeper d b := by
  induction l with
  | nil => rfl
  | cons p r ih =>
    obtain ⟨d2, e⟩ := p
    have hd : d < d2 := h (d2, e) (List.mem_cons_self _ _)
    rw [List.cons_append, skipDeeper_cons, if_neg (by omega)]
    exact ih (fun q hq => h q (List.mem_cons_of_mem _ hq))

theorem skipDeeper_subtree (d d2 : Nat) (cc : DieList) (b : List (Nat × Die)) (h : d < d2) :
    skipDeeper d (flattenF d2 cc ++ b) = skipDeeper d b :=
  skipDeeper_append_deeper d _ b
    (fun p hp => Nat.lt_of_lt_of_le h (flattenF_depth_le d2 cc p hp))

theorem next_sibling_tail (c : Die) (d : Nat) (tail : List (Nat × Die)) (htail : HeadLe tail d) :
    Cursor.next_sibling ⟨d + 1, c, flattenF (d + 2) c.children ++ tail⟩ = none := by
  have hskip : skipDeeper (d + 1) (flattenF (d + 2) c.children ++ tail) =
      skipDeeper (d + 1) tail :=
    skipDeeper_subtree (d + 1) (d + 2) c.children tail (by omega)
  cases tail with
  | nil =>
    simp only [List.append_nil] at hskip
    simp only [List.append_nil]
    simp [Cursor.next_sibling, hskip, skipDeeper]
  | cons p r =>
    have hp : p.1 ≤ d := htail
    obtain ⟨d2, e⟩ := p
    simp only [Cursor.next_sibling, hskip, skipDeeper_cons]
    rw [if_pos (by omega : d2 ≤ d + 1)]
    simp only []
    rw [if_neg (by omega : ¬ d2 = d + 1)]

theorem siblings_spec (cs : DieList) (fuel : Nat) (c : Die) (d : Nat)
    (tail : List (Nat × Die)) (htail : HeadLe tail d)
    (hfuel : cs.toList.length ≤ fuel) :
    siblingsAux fuel
      ⟨d + 1, c, flattenF (d + 2) c.children ++ (flattenF (d + 1) cs ++ tail)⟩
      = cs.toList := by
  cases cs with
  | nil =>
    have hns := next_sibling_tail c d tail htail
    cases fuel with
    | zero => rfl
    | succ f =>
      simp only [flattenF, List.nil_append, DieList.toList]
      simp [siblingsAux, hns]
  | cons c2 cs2 =>
    cases fuel with
    | zero => simp [DieList.toList] at hfuel
    | succ f =>
      have hns : Cursor.next_sibling
          ⟨d + 1, c, flattenF (d + 2) c.children ++ (flattenF (d + 1) (DieList.cons c2 cs2) ++ tail)⟩
          = some ⟨d + 1, c2, flattenF (d + 2) c2.children ++ (flattenF (d + 1) cs2 ++ tail)⟩ := by
        have hskip := skipDeeper_subtree (d + 1) (d + 2) c.children
          (flattenF (d + 1) (DieList.cons c2 cs2) ++ tail) (by omega)
        simp only [Cursor.next_sibling, hskip]
        have hexp : flattenF (d + 1) (DieList.cons c2 cs2) ++ tail =
            (d + 1, c2) :: (flattenF (d + 2) c2.children ++ (flattenF (d + 1) cs2 ++ tail)) := by
          simp only [flattenF, flattenD_eq, List.cons_append, List.append_assoc]
        rw [hexp, skipDeeper_cons, if_pos (Nat.le_refl (d + 1))]
        simp
      simp only [siblingsAux, hns]
      have ih := siblings_spec cs2 f c2 d tail htail
        (by simp only [DieList.toList, List.length_cons] at hfuel; omega)
      rw [ih]
      rfl

/-- C5: the iterator over a DIE's children, built from one depth-first step
accepted only at depth delta exactly +1 followed by sibling-shortcut
steps, yields exactly the direct children of the DIE in document order
and nothing else, for any serialisation suffix `tail` following the DIE's
subtree (such a suffix always resumes at the depth of the DIE or above);
in particular a childless DIE yields the empty sequence, and a first
child's own children are skipped. -/
theorem claim_C5 (t : Die) (d : Nat) (tail : List (Nat × Die)) (htail : HeadLe tail d) :
    entryChildren ⟨d, t, flattenF (d + 1) t.children ++ tail⟩ = t.children.toList := by
  cases hc : t.children with
  | nil =>
    simp only [flattenF, List.nil_append, DieList.toList]
    cases tail with
    | nil => rfl
    | cons p r =>
      have hp : p.1 ≤ d := htail
      obtain ⟨d2, e⟩ := p
      simp only [entryChildren, Cursor.next_dfs]
      rw [if_neg (by omega : ¬ ((d2 : Int) - (d : Int) = 1))]
  | cons c2 cs2 =>
    have hexp : flattenF (d + 1) (DieList.cons c2 cs2) ++ tail =
        (d + 1, c2) :: (flattenF (d + 2) c2.children ++ (flattenF (d + 1) cs2 ++ tail)) := by
      simp only [flattenF, flattenD_eq, List.cons_append, List.append_assoc]
    rw [hexp]
    simp only [entryChildren, Cursor.next_dfs]
    rw [if_pos (show ((d + 1 : Nat) : Int) - (d : Int) = 1 by omega)]
    have hfuel : cs2.toList.length ≤
        (flattenF (d + 2) c2.children ++ (flattenF (d + 1) cs2 ++ tail)).length := by
      have := flattenF_length_le (d + 1) cs2
      simp only [List.length_append]
      omega
    have := siblings_spec cs2 _ c2 d tail htail hfuel
    simp only [DieList.toList]
    rw [this]

/-- Whether a fallible predicate returned .ok true (the Bool view used to
relate filterExcept to List.filter). -/
def passedTrue {α : Type} (p : α → Except String Bool) (x : α) : Bool :=
  match p x with
  | .ok b => b
  | .error _ => false

theorem passedTrue_iff {α : Type} (p : α → Except String Bool) (x : α) :
    passedTrue p x = true ↔ p x = .ok true := by
  unfold passedTrue
  cases hp : p x with
  | error m => simp
  | ok b => cases b <;> simp

theorem filterExcept_eq {α : Type} (p : α → Except String Bool) (l : List α)
    (h : ∀ x ∈ l, ∃ b, p x = .ok b) :
    filterExcept p l = .ok (l.filter (passedTrue p)) := by
  induction l with
  | nil => rfl
  | cons a l2 ih =>
    obtain ⟨b, hb⟩ := h a (List.mem_cons_self _ _)
    have ih2 := ih (fun x hx => h x (List.mem_cons_of_mem _ hx))
    have hpt : passedTrue p a = b := by unfold passedTrue; rw [hb]
    simp only [filterExcept, hb, ih2, List.filter_cons, hpt]

theorem filterExcept_ok_forall {α : Type} (p : α → Except String Bool) (l : List α)
    (r : List α) (h : filterExcept p l = .ok r) :
    ∀ x ∈ l, ∃ b, p x = .ok b := by
  induction l generalizing r with
  | nil => intro x hx; simp at hx
  | cons a l2 ih =>
    intro x hx
    simp only [filterExcept] at h
    cases hp : p a with
    | error m => rw [hp] at h; cases h
    | ok b =>
      rw [hp] at h
      cases hrest : filterExcept p l2 with
      | error m => rw [hrest] at h; cases h
      | ok r2 =>
        rcases List.mem_cons.mp hx with h1 | h1
        · subst h1; exact ⟨b, hp⟩
        · exact ih r2 hrest x h1

theorem filterExcept_ok_eq {α : Type} (p : α → Except String Bool) (l : List α)
    (r : List α) (h : filterExcept p l = .ok r) :
    r = l.filter (passedTrue p) := by
  have h2 := filterExcept_eq p l (filterExcept_ok_forall p l r h)
  rw [h] at h2
  exact Except.ok.inj h2

theorem filterExcept_mem {α : Type} (p : α → Except String Bool) (l : List α)
    (r : List α) (h : filterExcept p l = .ok r) (x : α) :
    x ∈ r ↔ (x ∈ l ∧ p x = .ok true) := by
  rw [filterExcept_ok_eq p l r h, List.mem_filter, passedTrue_iff]

theorem filterExcept_true_id {α : Type} (p : α → Except String Bool) (l : List α)
    (h : ∀ x, p x = .ok true) : filterExcept p l = .ok l := by
  rw [filterExcept_eq p l (fun x _ => ⟨true, h x⟩)]
  congr 1
  exact List.filter_eq_self.mpr (fun x _ => (passedTrue_iff p x).mpr (h x))

theorem uniq_nil (fuel : Nat) (seen : List (Option String)) :
    uniqueByNameAux fuel seen [] = .ok [] := rfl

theorem uniq_cons_error (fuel : Nat) (seen : List (Option String)) (e : ContextEntry)
    (rest : List ContextEntry) (m : String) (hn : e.nameF fuel = .error m) :
    uniqueByNameAux fuel seen (e :: rest) = .error m := by
  simp [uniqueByNameAux, hn]

theorem uniq_cons_seen (fuel : Nat) (seen : List (Option String)) (e : ContextEntry)
    (rest : List ContextEntry) (k : Option String) (hn : e.nameF fuel = .ok k)
    (hk : k ∈ seen) :
    uniqueByNameAux fuel seen (e :: rest) = uniqueByNameAux fuel seen rest := by
  simp [uniqueByNameAux, hn, hk]

theorem uniq_cons_new_error (fuel : Nat) (seen : List (Option String)) (e : ContextEntry)
    (rest : List ContextEntry) (k : Option String) (m : String)
    (hn : e.nameF fuel = .ok k) (hk : k ∉ seen)
    (hrest : uniqueByNameAux fuel (k :: seen) rest = .error m) :
    uniqueByNameAux fuel seen (e :: rest) = .error m := by
  simp [uniqueByNameAux, hn, hk, hrest]

theorem uniq_cons_new_ok (fuel : Nat) (seen : List (Option String)) (e : ContextEntry)
    (rest : List ContextEntry) (k : Option String) (r2 : List ContextEntry)
    (hn : e.nameF fuel = .ok k) (hk : k ∉ seen)
    (hrest : uniqueByNameAux fuel (k :: seen) rest = .ok r2) :
    uniqueByNameAux fuel seen (e :: rest) = .ok (e :: r2) := by
  simp [uniqueByNameAux, hn, hk, hrest]

theorem uniq_sublist (fuel : Nat) (seen : List (Option String)) (l r : List ContextEntry)
    (h : uniqueByNameAux fuel seen l = .ok r) : List.Sublist r l := by
  induction l generalizing seen r with
  | nil =>
    rw [uniq_nil] at h
    cases h
    exact List.nil_sublist _
  | cons e rest ih =>
    cases hn : e.nameF fuel with
    | error m => rw [uniq_cons_error fuel seen e rest m hn] at h; cases h
    | ok k =>
      by_cases hk : k ∈ seen
      · rw [uniq_cons_seen fuel seen e rest k hn hk] at h
        exact (ih seen r h).cons e
      · cases hrest : uniqueByNameAux fuel (k :: seen) rest with
        | error m => rw [uniq_cons_new_error fuel seen e rest k m hn hk hrest] at h; cases h
        | ok r2 =>
          rw [uniq_cons_new_ok fuel seen e rest k r2 hn hk hrest] at h
          cases h
          exact (ih (k :: seen) r2 hrest).cons₂ e

theorem uniq_forall_ok (fuel : Nat) (seen : List (Option String)) (l r : List ContextEntry)
    (h : uniqueByNameAux fuel seen l = .ok r) :
    ∀ x ∈ l, ∃ k, x.nameF fuel = .ok k := by
  induction l generalizing seen r with
  | nil => intro x hx; simp at hx
  | cons e rest ih =>
    intro x hx
    cases hn : e.nameF fuel with
    | error m => rw [uniq_cons_error fuel seen e rest m hn] at h; cases h
    | ok k =>
      rcases List.mem_cons.mp hx with h1 | h1
      · subst h1; exact ⟨k, hn⟩
      · by_cases hk : k ∈ seen
        · rw [uniq_cons_seen fuel seen e rest k hn hk] at h
          exact ih seen r h x h1
        · cases hrest : uniqueByNameAux fuel (k :: seen) rest with
          | error m => rw [uniq_cons_new_error fuel seen e rest k m hn hk hrest] at h; cases h
          | ok r2 => exact ih (k :: seen) r2 hrest x h1

theorem uniq_keys (fuel : Nat) (seen : List (Option String)) (l r : List ContextEntry)
    (h : uniqueByNameAux fuel seen l = .ok r) :
    ∀ x ∈ r, ∃ k, x.nameF fuel = .ok k ∧ k ∉ seen := by
  induction l generalizing seen r with
  | nil =>
    rw [uniq_nil] at h
    cases h
    intro x hx; simp at hx
  | cons e rest ih =>
    intro x hx
    cases hn : e.nameF fuel with
    | error m => rw [uniq_cons_error fuel seen e rest m hn] at h; cases h
    | ok k =>
      by_cases hk : k ∈ seen
      · rw [uniq_cons_seen fuel seen e rest k hn hk] at h
        exact ih seen r h x hx
      · cases hrest : uniqueByNameAux fuel (k :: seen) rest with
        | error m => rw [uniq_cons_new_error fuel seen e rest k m hn hk hrest] at h; cases h
        | ok r2 =>
          rw [uniq_cons_new_ok fuel seen e rest k r2 hn hk hrest] at h
          cases h
          rcases List.mem_cons.mp hx with h1 | h1
          · subst h1; exact ⟨k, hn, hk⟩
          · obtain ⟨k2, hk2, hk2n⟩ := ih (k :: seen) r2 hrest x h1
            exact ⟨k2, hk2, fun hc => hk2n (List.mem_cons_of_mem _ hc)⟩

theorem uniq_nodup (fuel : Nat) (seen : List (Option String)) (l r : List ContextEntry)
    (h : uniqueByNameAux fuel seen l = .ok r) :
    (r.map (fun x => x.nameF fuel)).Nodup := by
  induction l generalizing seen r with
  | nil =>
    rw [uniq_nil] at h
    cases h
    simp
  | cons e rest ih =>
    cases hn : e.nameF fuel with
    | error m => rw [uniq_cons_error fuel seen e rest m hn] at h; cases h
    | ok k =>
      by_cases hk : k ∈ seen
      · rw [uniq_cons_seen fuel seen e rest k hn hk] at h
        exact ih seen r h
      · cases hrest : uniqueByNameAux fuel (k :: seen) rest with
        | error m => rw [uniq_cons_new_error fuel seen e rest k m hn hk hrest] at h; cases h
        | ok r2 =>
          rw [uniq_cons_new_ok fuel seen e rest k r2 hn hk hrest] at h
          cases h
          simp only [List.map_cons, List.nodup_cons]
          refine ⟨?_, ih (k :: seen) r2 hrest⟩
          intro hc
          obtain ⟨y, hy, hyk⟩ := List.mem_map.mp hc
          obtain ⟨k2, hk2, hk2n⟩ := uniq_keys fuel (k :: seen) rest r2 hrest y hy
          rw [hk2, hn] at hyk
          exact hk2n ((Except.ok.inj hyk) ▸ List.mem_cons_self _ _)

theorem uniq_covered (fuel : Nat) (seen : List (Option String)) (l r : List ContextEntry)
    (h : uniqueByNameAux fuel seen l = .ok r) :
    ∀ x ∈ l, ∀ k, x.nameF fuel = .ok k → k ∉ seen →
      ∃ y ∈ r, y.nameF fuel = .ok k := by
  induction l generalizing seen r with
  | nil => intro x hx; simp at hx
  | cons e rest ih =>
    intro x hx k hxk hknotin
    cases hn : e.nameF fuel with
    | error m => rw [uniq_cons_error fuel seen e rest m hn] at h; cases h
    | ok k0 =>
      by_cases hk0 : k0 ∈ seen
      · rw [uniq_cons_seen fuel seen e rest k0 hn hk0] at h
        rcases List.mem_cons.mp hx with h1 | h1
        · subst h1
          rw [hn] at hxk
          exact absurd ((Except.ok.inj hxk) ▸ hk0) hknotin
        · exact ih seen r h x h1 k hxk hknotin
      · cases hrest : uniqueByNameAux fuel (k0 :: seen) rest with
        | error m => rw [uniq_cons_new_error fuel seen e rest k0 m hn hk0 hrest] at h; cases h
        | ok r2 =>
          rw [uniq_cons_new_ok fuel seen e rest k0 r2 hn hk0 hrest] at h
          cases h
          rcases List.mem_cons.mp hx with h1 | h1
          · refine ⟨e, List.mem_cons_self _ _, ?_⟩
            rw [h1, hn] at hxk
            exact (Except.ok.inj hxk) ▸ hn
          · by_cases hkk : k = k0
            · exact ⟨e, List.mem_cons_self _ _, hkk ▸ hn⟩
            · obtain ⟨y, hy, hyk⟩ := ih (k0 :: seen) r2 hrest x h1 k hxk
                (by simp [hkk, hknotin])
              exact ⟨y, List.mem_cons_of_mem _ hy, hyk⟩

theorem uniq_first (fuel : Nat) (pre : List ContextEntry) :
    ∀ (seen : List (Option String)) (l r : List ContextEntry) (x : ContextEntry)
      (post : List ContextEntry),
      uniqueByNameAux fuel seen l = .ok r →
      l = pre ++ x :: post →
      (∀ k2, x.nameF fuel = .ok k2 → k2 ∉ seen) →
      (∀ y ∈ pre, y.nameF fuel ≠ x.nameF fuel) →
      x ∈ r := by
  induction pre with
  | nil =>
    intro seen l r x post h hl hnotin _
    subst hl
    rw [List.nil_append] at h
    cases hn : x.nameF fuel with
    | error m => rw [uniq_cons_error fuel seen x post m hn] at h; cases h
    | ok k =>
      cases hrest : uniqueByNameAux fuel (k :: seen) post with
      | error m =>
        rw [uniq_cons_new_error fuel seen x post k m hn (hnotin k hn) hrest] at h; cases h
      | ok r2 =>
        rw [uniq_cons_new_ok fuel seen x post k r2 hn (hnotin k hn) hrest] at h
        cases h
        exact List.mem_cons_self _ _
  | cons y pre2 ih =>
    intro seen l r x post h hl hnotin hpre
    subst hl
    rw [List.cons_append] at h
    cases hn : y.nameF fuel with
    | error m => rw [uniq_cons_error fuel seen y _ m hn] at h; cases h
    | ok k0 =>
      by_cases hk0 : k0 ∈ seen
      · rw [uniq_cons_seen fuel seen y _ k0 hn hk0] at h
        exact ih seen _ r x post h rfl hnotin
          (fun z hz => hpre z (List.mem_cons_of_mem _ hz))
      · cases hrest : uniqueByNameAux fuel (k0 :: seen) (pre2 ++ x :: post) with
        | error m => rw [uniq_cons_new_error fuel seen y _ k0 m hn hk0 hrest] at h; cases h
        | ok r2 =>
          rw [uniq_cons_new_ok fuel seen y _ k0 r2 hn hk0 hrest] at h
          cases h
          have hx2 : x ∈ r2 := by
            refine ih (k0 :: seen) _ r2 x post hrest rfl ?_
              (fun z hz => hpre z (List.mem_cons_of_mem _ hz))
            intro k2 hk2 hmem
            rcases List.mem_cons.mp hmem with h1 | h1
            · exact hpre y (List.mem_cons_self _ _) (by rw [hn, hk2, h1])
            · exact hnotin k2 hk2 h1
          exact List.mem_cons_of_mem _ hx2

theorem anyMember_cons_skip (fuel : Nat) (req : String) (c : ContextEntry)
    (rest : List ContextEntry)
    (hc : ¬ (c.tag = Tag.member ∧ c.member_location.isSome = true)) :
    anyMemberMatches fuel req (c :: rest) = anyMemberMatches fuel req rest := by
  simp only [anyMemberMatches]
  rw [if_neg (by simpa using hc)]

theorem anyMember_cons_class_error (fuel : Nat) (req : String) (c : ContextEntry)
    (rest : List ContextEntry) (m : String)
    (hc : c.tag = Tag.member ∧ c.member_location.isSome = true)
    (hcl : c.classOf = .error m) :
    anyMemberMatches fuel req (c :: rest) = .error m := by
  simp only [anyMemberMatches]
  rw [if_pos (by simpa using hc), hcl]

theorem anyMember_cons_class_none (fuel : Nat) (req : String) (c : ContextEntry)
    (rest : List ContextEntry)
    (hc : c.tag = Tag.member ∧ c.member_location.isSome = true)
    (hcl : c.classOf = .ok none) :
    anyMemberMatches fuel req (c :: rest) = anyMemberMatches fuel req rest := by
  simp only [anyMemberMatches]
  rw [if_pos (by simpa using hc), hcl]

theorem anyMember_cons_name_error (fuel : Nat) (req : String) (c cls : ContextEntry)
    (rest : List ContextEntry) (m : String)
    (hc : c.tag = Tag.member ∧ c.member_location.isSome = true)
    (hcl : c.classOf = .ok (some cls)) (hnm : cls.nameF fuel = .error m) :
    anyMemberMatches fuel req (c :: rest) = .error m := by
  simp only [anyMemberMatches]
  rw [if_pos (by simpa using hc), hcl]
  show (match cls.nameF fuel with
        | .error msg => (.error msg : Except String Bool)
        | .ok n2 => if n2 = some req then .ok true else anyMemberMatches fuel req rest) = _
  rw [hnm]

theorem anyMember_cons_name_ok (fuel : Nat) (req : String) (c cls : ContextEntry)
    (rest : List ContextEntry) (n : Option String)
    (hc : c.tag = Tag.member ∧ c.member_location.isSome = true)
    (hcl : c.classOf = .ok (some cls)) (hnm : cls.nameF fuel = .ok n) :
    anyMemberMatches fuel req (c :: rest) =
      if n = some req then .ok true else anyMemberMatches fuel req rest := by
  simp only [anyMemberMatches]
  rw [if_pos (by simpa using hc), hcl]
  show (match cls.nameF fuel with
        | .error msg => (.error msg : Except String Bool)
        | .ok n2 => if n2 = some req then .ok true else anyMemberMatches fuel req rest) = _
  rw [hnm]

theorem anyMemberMatches_true (fuel : Nat) (req : String) (cs : List ContextEntry)
    (h : anyMemberMatches fuel req cs = .ok true) :
    ∃ c ∈ cs, c.tag = Tag.member ∧ c.member_location.isSome = true ∧
      ∃ cls, c.classOf = .ok (some cls) ∧ cls.nameF fuel = .ok (some req) := by
  induction cs with
  | nil => simp [anyMemberMatches] at h
  | cons c rest ih =>
    by_cases hc : c.tag = Tag.member ∧ c.member_location.isSome = true
    · cases hcl : c.classOf with
      | error m => rw [anyMember_cons_class_error fuel req c rest m hc hcl] at h; cases h
      | ok co =>
        cases co with
        | none =>
          rw [anyMember_cons_class_none fuel req c rest hc hcl] at h
          obtain ⟨c2, hc2, hrest⟩ := ih h
          exact ⟨c2, List.mem_cons_of_mem _ hc2, hrest⟩
        | some cls =>
          cases hnm : cls.nameF fuel with
          | error m => rw [anyMember_cons_name_error fuel req c cls rest m hc hcl hnm] at h; cases h
          | ok n =>
            rw [anyMember_cons_name_ok fuel req c cls rest n hc hcl hnm] at h
            by_cases hreq : n = some req
            · exact ⟨c, List.mem_cons_self _ _, hc.1, hc.2, cls, hcl, by rw [hnm, hreq]⟩
            · rw [if_neg hreq] at h
              obtain ⟨c2, hc2, hrest⟩ := ih h
              exact ⟨c2, List.mem_cons_of_mem _ hc2, hrest⟩
    · rw [anyMember_cons_skip fuel req c rest hc] at h
      obtain ⟨c2, hc2, hrest⟩ := ih h
      exact ⟨c2, List.mem_cons_of_mem _ hc2, hrest⟩

theorem findSome_append_none {α β : Type} (f : α → Option β) (pre rest : List α)
    (h : ∀ u ∈ pre, f u = none) :
    (pre ++ rest).findSome? f = rest.findSome? f := by
  induction pre with
  | nil => rfl
  | cons a pre2 ih =>
    rw [List.cons_append, List.findSome?_cons]
    rw [h a (List.mem_cons_self _ _)]
    exact ih (fun u hu => h u (List.mem_cons_of_mem _ hu))

theorem findSome_none {α β : Type} (f : α → Option β) (l : List α)
    (h : ∀ u ∈ l, f u = none) : l.findSome? f = none := by
  induction l with
  | nil => rfl
  | cons a l2 ih =>
    rw [List.findSome?_cons, h a (List.mem_cons_self _ _)]
    exact ih (fun u hu => h u (List.mem_cons_of_mem _ hu))

theorem expand_of_chain (e last : ContextEntry) (l : List ContextEntry)
    (hchain : TypedefChain e l last) :
    ∀ fuel, l.length < fuel → e.expandTypeDefsF fuel = .ok last := by
  induction hchain with
  | done e2 hne =>
    intro fuel hf
    cases fuel with
    | zero => omega
    | succ f =>
      simp only [ContextEntry.expandTypeDefsF]
      rw [if_neg hne]
  | step e2 e3 last2 l2 htag hcls hch ih =>
    intro fuel hf
    cases fuel with
    | zero => omega
    | succ f =>
      simp only [ContextEntry.expandTypeDefsF]
      rw [if_pos htag, hcls]
      exact ih f (by simp at hf; omega)

theorem TypedefChain.last_not_typedef (e last : ContextEntry) (l : List ContextEntry)
    (hchain : TypedefChain e l last) : last.tag ≠ Tag.typedef := by
  induction hchain with
  | done e2 hne => exact hne
  | step _ _ _ _ _ _ _ ih => exact ih

theorem mapExcept_error {α β : Type} (f : α → Except String β) (l : List α) (x : α)
    (hx : x ∈ l) (hf : ∀ v, ¬ f x = .ok v) :
    ∃ msg, mapExcept f l = .error msg := by
  induction l with
  | nil => simp at hx
  | cons a rest ih =>
    cases hfa : f a with
    | error m => exact ⟨m, by simp [mapExcept, hfa]⟩
    | ok y =>
      rcases List.mem_cons.mp hx with h1 | h1
      · subst h1
        exact absurd hfa (hf y)
      · obtain ⟨msg, hrest⟩ := ih h1
        exact ⟨msg, by simp [mapExcept, hfa, hrest]⟩

theorem pipelinePrinted_ok (fuel : Nat) (sf : SearchFilter) (units : List CompUnit)
    (r : List ContextEntry) (h : pipelinePrinted fuel sf units = .ok r) :
    ∃ l, pipelineFiltered fuel sf units = .ok l ∧ uniqueByNameAux fuel [] l = .ok r := by
  unfold pipelinePrinted at h
  cases hf : pipelineFiltered fuel sf units with
  | error m => rw [hf] at h; cases h
  | ok l =>
    rw [hf] at h
    exact ⟨l, rfl, h⟩

theorem pipelineFiltered_ok (fuel : Nat) (sf : SearchFilter) (units : List CompUnit)
    (r : List ContextEntry) (h : pipelineFiltered fuel sf units = .ok r) :
    ∃ l1 l2, filterExcept (passName fuel sf.class_name) (pipelineSized units) = .ok l1 ∧
      filterExcept (passBase fuel sf.base_class_name) l1 = .ok l2 ∧
      filterExcept (passContains fuel sf.contained_class_name) l2 = .ok r := by
  unfold pipelineFiltered at h
  cases h1 : filterExcept (passName fuel sf.class_name) (pipelineSized units) with
  | error m => rw [h1] at h; cases h
  | ok l1 =>
    rw [h1] at h
    cases h2 : filterExcept (passBase fuel sf.base_class_name) l1 with
    | error m =>
      have hred : (match filterExcept (passBase fuel sf.base_class_name) l1 with
        | Except.error msg => (Except.error msg : Except String (List ContextEntry))
        | Except.ok l2 => filterExcept (passContains fuel sf.contained_class_name) l2) =
          Except.ok r := h
      rw [h2] at hred
      cases hred
    | ok l2 =>
      have h3 : filterExcept (passContains fuel sf.contained_class_name) l2 = .ok r := by
        have hred : (match filterExcept (passBase fuel sf.base_class_name) l1 with
          | Except.error msg => (Except.error msg : Except String (List ContextEntry))
          | Except.ok l2 => filterExcept (passContains fuel sf.contained_class_name) l2) =
            Except.ok r := h
        rw [h2] at hred
        exact hred
      exact ⟨l1, l2, rfl, h2, h3⟩

theorem passContains_some_true (fuel : Nat) (req : String) (e : ContextEntry)
    (h : passContains fuel (some req) e = .ok true) :
    ∃ children, e.iter_children = .ok children ∧
      anyMemberMatches fuel req children = .ok true := by
  unfold passContains at h
  cases hic : e.iter_children with
  | error m => rw [hic] at h; cases h
  | ok children =>
    rw [hic] at h
    exact ⟨children, rfl, h⟩

/-- C1 (amended): the dedup stage collapses surviving class DIEs by their
name() key as a full optional value, so also two DIEs with an absent name
collapse: the kept entries form a subsequence of the survivors with
pairwise distinct name keys, every survivor's key is represented, and any
survivor preceded by no entry of equal key — the first of its key in
iteration order — is kept. -/
theorem claim_C1_amended (fuel : Nat) (l r : List ContextEntry)
    (h : uniqueByNameAux fuel [] l = .ok r) :
    List.Sublist r l
    ∧ (r.map (fun x => x.nameF fuel)).Nodup
    ∧ (∀ x ∈ l, ∃ y ∈ r, y.nameF fuel = x.nameF fuel)
    ∧ (∀ pre x post, l = pre ++ x :: post →
        (∀ y ∈ pre, y.nameF fuel ≠ x.nameF fuel) → x ∈ r) := by
  refine ⟨uniq_sublist fuel [] l r h, uniq_nodup fuel [] l r h, ?_, ?_⟩
  · intro x hx
    obtain ⟨k, hk⟩ := uniq_forall_ok fuel [] l r h x hx
    obtain ⟨y, hy, hyk⟩ := uniq_covered fuel [] l r h x hx k hk (by simp)
    exact ⟨y, hy, by rw [hyk, hk]⟩
  · intro pre x post hl hpre
    exact uniq_first fuel pre [] l r x post h hl (fun k2 _ => by simp) hpre

/-- C1 (counterexample): on a unit with two nameless sized class DIEs and no
filters, both DIEs survive the three sub-filters, yet the dedup stage
keeps only the first — the second nameless DIE is collapsed against the
first, refuting that DIEs with absent names are never collapsed. -/
theorem claim_C1_counterexample :
    (pipelineFiltered 9 sfNone [cuAnon]).map (List.map (fun e => e.entry.offset)) =
      .ok [10, 20]
    ∧ eAnon1.nameF 9 = .ok none
    ∧ eAnon2.nameF 9 = .ok none
    ∧ (pipelinePrinted 9 sfNone [cuAnon]).map (List.map (fun e => e.entry.offset)) =
      .ok [10] :=
  ⟨rfl, rfl, rfl, rfl⟩

theorem claim_C1_witness :
    uniqueByNameAux 9 [] [eX1, eX2] = .ok [eX1]
    ∧ (List.Sublist [eX1] [eX1, eX2]
      ∧ (([eX1].map (fun x => x.nameF 9)).Nodup)
      ∧ (∀ x ∈ [eX1, eX2], ∃ y ∈ [eX1], y.nameF 9 = x.nameF 9)
      ∧ (∀ pre x post, [eX1, eX2] = pre ++ x :: post →
          (∀ y ∈ pre, y.nameF 9 ≠ x.nameF 9) → x ∈ [eX1])) :=
  ⟨rfl, claim_C1_amended 9 [eX1, eX2] [eX1] rfl⟩

/-- C9: when no --shared-object path is given, main reads the HOME
environment variable and appends the fixed Stardew Valley install path to
it; a missing HOME fails with the dedicated NoHomeDirectoryFound error and
with no other error. -/
theorem claim_C9 :
    (∀ env : String → Option String, env "HOME" = none →
      resolveSharedObjectPath none env = .error ProgError.noHomeDirectoryFound)
    ∧ (∀ (env : String → Option String) (home : String), env "HOME" = some home →
      resolveSharedObjectPath none env = .ok
        (home ++ "/.steam/steam/steamapps/common/Stardew Valley/libcoreclr.so")) := by
  constructor
  · intro env h
    unfold resolveSharedObjectPath
    rw [h]
  · intro env home h
    unfold resolveSharedObjectPath
    rw [h]
    rfl

theorem claim_C9_witness :
    resolveSharedObjectPath none (fun _ => none) = .error ProgError.noHomeDirectoryFound
    ∧ resolveSharedObjectPath none
        (fun v => if v = "HOME" then some "/home/user" else none) =
      .ok "/home/user/.steam/steam/steamapps/common/Stardew Valley/libcoreclr.so" :=
  ⟨claim_C9.1 (fun _ => none) rfl,
   claim_C9.2 (fun v => if v = "HOME" then some "/home/user" else none) "/home/user"
     (by simp)⟩

/-- C10: a class DIE that survives the three filters and the dedup stage but
whose name() is absent makes the run abort with a panic at the header's
name unwrap, instead of printing a fallback name. -/
theorem claim_C10 (fuel : Nat) (sf : SearchFilter) (units : List CompUnit)
    (r : List ContextEntry) (e : ContextEntry)
    (hrun : pipelinePrinted fuel sf units = .ok r) (he : e ∈ r)
    (hname : e.nameF fuel = .ok none) :
    ∃ msg, dump_file fuel sf units = .error msg := by
  have hp : ∀ v, ¬ printClass fuel e = .ok v := by
    intro v hv
    unfold printClass at hv
    rw [hname] at hv
    simp at hv
  unfold dump_file
  rw [hrun]
  show ∃ msg, mapExcept (printClass fuel) r = .error msg
  exact mapExcept_error (printClass fuel) r e he hp

theorem claim_C10_witness :
    pipelinePrinted 9 sfNone [cuAnon] = .ok [eAnon1]
    ∧ eAnon1.nameF 9 = .ok none
    ∧ ∃ msg, dump_file 9 sfNone [cuAnon] = .error msg :=
  ⟨rfl, rfl,
   claim_C10 9 sfNone [cuAnon] [eAnon1] eAnon1 rfl (List.mem_singleton.mpr rfl) rfl⟩

/-- C2 (amended): under --contains C, every printed class has at least one
member child carrying a data_member_location whose type — followed one
step via class(), with no typedef expansion — has name C.  (The typedef
expansion claimed by the specification does not happen in this filter;
see the counterexample.) -/
theorem claim_C2_amended (fuel : Nat) (sf : SearchFilter) (units : List CompUnit)
    (req : String) (r : List ContextEntry) (e : ContextEntry)
    (hsf : sf.contained_class_name = some req)
    (hrun : pipelinePrinted fuel sf units = .ok r) (he : e ∈ r) :
    ∃ children, e.iter_children = .ok children ∧
      ∃ c ∈ children, c.tag = Tag.member ∧ c.member_location.isSome = true ∧
        ∃ cls, c.classOf = .ok (some cls) ∧ cls.nameF fuel = .ok (some req) := by
  obtain ⟨l, hfil, huniq⟩ := pipelinePrinted_ok fuel sf units r hrun
  have hel : e ∈ l := (uniq_sublist fuel [] l r huniq).subset he
  obtain ⟨l1, l2, h1, h2, h3⟩ := pipelineFiltered_ok fuel sf units l hfil
  have hpass : passContains fuel sf.contained_class_name e = .ok true :=
    ((filterExcept_mem _ l2 l h3 e).mp hel).2
  rw [hsf] at hpass
  obtain ⟨children, hic, hany⟩ := passContains_some_true fuel req e hpass
  exact ⟨children, hic, anyMemberMatches_true fuel req children hany⟩

/-- C2 (counterexample): class Foo's only data member has type `Alias`, a
typedef of the base type named C; with --contains C nothing survives the
filter even though the member's typedef-expanded type has name C (and
--contains Alias does match Foo): the filter compares the direct type
name, not the typedef-expanded one. -/
theorem claim_C2_counterexample :
    (pipelineFiltered 9 sfContainsC [cuTD]).map (List.map (fun e => e.entry.offset)) =
      .ok []
    ∧ (pipelinePrinted 9 sfContainsC [cuTD]).map (List.map (fun e => e.entry.offset)) =
      .ok []
    ∧ dieFoo.tag = Tag.class_type
    ∧ eTDm.member_location = some 0
    ∧ eTDm.classOf = .ok (some eAlias)
    ∧ eAlias.tag = Tag.typedef
    ∧ eAlias.expandTypeDefsF 9 = .ok eCBase
    ∧ eCBase.nameF 9 = .ok (some "C")
    ∧ (pipelineFiltered 9 sfContainsAlias [cuTD]).map (List.map (fun e => e.entry.offset)) =
      .ok [10] :=
  ⟨rfl, rfl, rfl, rfl, rfl, rfl, rfl, rfl, rfl⟩

theorem claim_C2_witness :
    pipelinePrinted 9 sfContainsC [cuX] = .ok [eX2]
    ∧ ∃ children, eX2.iter_children = .ok children ∧
        ∃ c ∈ children, c.tag = Tag.member ∧ c.member_location.isSome = true ∧
          ∃ cls, c.classOf = .ok (some cls) ∧ cls.nameF 9 = .ok (some "C") :=
  ⟨rfl, claim_C2_amended 9 sfContainsC [cuX] "C" [eX2] eX2 rfl rfl
    (List.mem_singleton.mpr rfl)⟩

/-- C4: when the class() chain from an entry passes through the typedef
entries of `l` and ends at the first non-typedef entry `last`,
expand_type_defs returns `last` (for any fuel beyond the chain length),
and the printer's declared type for a field whose class() is that entry —
child.class().unwrap().expand_type_defs() — is `last` as well, so the
field is rendered with the final non-typedef name. -/
theorem claim_C4 (e last child : ContextEntry) (l : List ContextEntry) (fuel : Nat)
    (hchain : TypedefChain e l last) (hfuel : l.length < fuel)
    (hchild : child.classOf = .ok (some e)) :
    e.expandTypeDefsF fuel = .ok last ∧ last.tag ≠ Tag.typedef ∧
      fieldDeclaredType fuel child = .ok last := by
  have hexp := expand_of_chain e last l hchain fuel hfuel
  refine ⟨hexp, TypedefChain.last_not_typedef e last l hchain, ?_⟩
  unfold fieldDeclaredType
  rw [hchild]
  exact hexp

theorem claim_C4_witness :
    TypedefChain eAlias2 [eAlias, eCBase] eCBase
    ∧ eTDm2.classOf = .ok (some eAlias2)
    ∧ (eAlias2.expandTypeDefsF 9 = .ok eCBase ∧ eCBase.tag ≠ Tag.typedef ∧
        fieldDeclaredType 9 eTDm2 = .ok eCBase) := by
  have hchain : TypedefChain eAlias2 [eAlias, eCBase] eCBase :=
    TypedefChain.step eAlias2 eAlias eCBase [eCBase] rfl rfl
      (TypedefChain.step eAlias eCBase eCBase [] rfl rfl
        (TypedefChain.done eCBase (by decide)))
  exact ⟨hchain, rfl,
    claim_C4 eAlias2 eCBase eTDm2 [eAlias, eCBase] 9 hchain (by decide) rfl⟩

theorem claim_C5_witness :
    HeadLe [(1, dieAfter)] 1
    ∧ entryChildren ⟨1, dieParent, flattenF 2 dieParent.children ++ [(1, dieAfter)]⟩ =
        dieParent.children.toList :=
  ⟨Nat.le_refl 1, claim_C5 dieParent 1 [(1, dieAfter)] (Nat.le_refl 1)⟩

/-- C6: following a DW_AT_type reference: a CU-relative reference resolves
in the current unit with unchanged ambient context; a .debug_info-relative
reference is resolved by the first unit in list order that accepts the
global-to-local offset translation, and the result's home unit becomes
that unit; if no unit accepts the offset, or the attribute has any other
form, class() aborts the run. -/
theorem claim_C6 (e : ContextEntry) :
    (∀ off d2, e.entry.typeRefAttr = some (TypeRef.unitRef off) →
        e.unit.entryAt off = some d2 →
        e.classOf = .ok (some ⟨e.units, e.unit, d2⟩))
    ∧ (∀ off pre u post loc d2, e.entry.typeRefAttr = some (TypeRef.debugInfoRef off) →
        e.units = pre ++ u :: post →
        (∀ u2 ∈ pre, u2.toUnitOffset off = none) →
        u.toUnitOffset off = some loc →
        u.entryAt loc = some d2 →
        e.classOf = .ok (some ⟨e.units, u, d2⟩))
    ∧ (∀ off, e.entry.typeRefAttr = some (TypeRef.debugInfoRef off) →
        (∀ u2 ∈ e.units, u2.toUnitOffset off = none) →
        e.classOf = .error "Could not find offset in any CU")
    ∧ (e.entry.typeRefAttr = some TypeRef.otherForm →
        e.classOf = .error "Invalid AttributeValue for type") := by
  refine ⟨?_, ?_, ?_, ?_⟩
  · intro off d2 htr hat
    unfold ContextEntry.classOf
    rw [htr]
    show (match e.unit.entryAt off with
      | some d => (Except.ok (some { e with entry := d }) : Except String (Option ContextEntry))
      | none => .error "unit.entry(offset) failed") = _
    rw [hat]
  · intro off pre u post loc d2 htr hunits hpre hu hat
    unfold ContextEntry.classOf
    rw [htr]
    show (match e.units.findSome?
        (fun u2 => (u2.toUnitOffset off).map (fun loc2 => (u2, loc2))) with
      | some (u2, loc2) =>
        match u2.entryAt loc2 with
        | some d =>
          (Except.ok (some { units := e.units, unit := u2, entry := d }) :
            Except String (Option ContextEntry))
        | none => .error "unit.entry(offset) failed"
      | none => .error "Could not find offset in any CU") = _
    have hfind : e.units.findSome?
        (fun u2 => (u2.toUnitOffset off).map (fun loc2 => (u2, loc2))) = some (u, loc) := by
      rw [hunits]
      rw [findSome_append_none _ pre _ (fun u2 hu2 => by rw [hpre u2 hu2]; rfl)]
      rw [List.findSome?_cons, hu]
      rfl
    rw [hfind]
    show (match u.entryAt loc with
      | some d =>
        (Except.ok (some { units := e.units, unit := u, entry := d }) :
          Except String (Option ContextEntry))
      | none => .error "unit.entry(offset) failed") = _
    rw [hat]
  · intro off htr hnone
    unfold ContextEntry.classOf
    rw [htr]
    show (match e.units.findSome?
        (fun u2 => (u2.toUnitOffset off).map (fun loc2 => (u2, loc2))) with
      | some (u2, loc2) =>
        match u2.entryAt loc2 with
        | some d =>
          (Except.ok (some { units := e.units, unit := u2, entry := d }) :
            Except String (Option ContextEntry))
        | none => .error "unit.entry(offset) failed"
      | none => .error "Could not find offset in any CU") = _
    rw [findSome_none _ _ (fun u2 hu2 => by rw [hnone u2 hu2]; rfl)]
  · intro htr
    unfold ContextEntry.classOf
    rw [htr]

theorem claim_C6_witness :
    eTDm.classOf = .ok (some eAlias)
    ∧ eFarRef.classOf = .ok (some ⟨[cuA, cuB], cuB, dieFar⟩)
    ∧ eNoFit.classOf = .error "Could not find offset in any CU"
    ∧ eBadForm.classOf = .error "Invalid AttributeValue for type" := by
  refine ⟨?_, ?_, ?_, ?_⟩
  · exact (claim_C6 eTDm).1 30 dieAlias rfl rfl
  · exact (claim_C6 eFarRef).2.1 150 [cuA] cuB [] 50 dieFar rfl rfl
      (fun u2 hu2 => by
        have h2 := List.mem_singleton.mp hu2
        subst h2
        rfl) rfl rfl
  · exact (claim_C6 eNoFit).2.2.1 999 rfl
      (fun u2 hu2 => by
        rcases List.mem_cons.mp hu2 with h2 | h2
        · subst h2; rfl
        · have h3 := List.mem_singleton.mp h2
          subst h3
          rfl)
  · exact (claim_C6 eBadForm).2.2.2 rfl

/-- C3 (amended): before the deduplication step, running with all three
filters is the intersection of the three single-filter runs: whenever the
three single-filter runs' filter stages succeed with survivor lists l1,
l2, l3, the combined run's filter stage succeeds and an entry survives it
exactly when it is in all three of l1, l2, l3.  (With the dedup step
included the equality fails; see the counterexample.) -/
theorem claim_C3_amended (fuel : Nat) (units : List CompUnit) (n b c : String)
    (l1 l2 l3 : List ContextEntry)
    (h1 : pipelineFiltered fuel ⟨some n, none, none⟩ units = .ok l1)
    (h2 : pipelineFiltered fuel ⟨none, some b, none⟩ units = .ok l2)
    (h3 : pipelineFiltered fuel ⟨none, none, some c⟩ units = .ok l3) :
    ∃ lAll, pipelineFiltered fuel ⟨some n, some b, some c⟩ units = .ok lAll ∧
      ∀ e, e ∈ lAll ↔ (e ∈ l1 ∧ e ∈ l2 ∧ e ∈ l3) := by
  obtain ⟨a1, a2, ha1, ha2, ha3⟩ :=
    pipelineFiltered_ok fuel ⟨some n, none, none⟩ units l1 h1
  have ha1x : filterExcept (passName fuel (some n)) (pipelineSized units) = .ok a1 := ha1
  have ha2x : filterExcept (passBase fuel none) a1 = .ok a2 := ha2
  have ha3x : filterExcept (passContains fuel none) a2 = .ok l1 := ha3
  have ea2 : a2 = a1 :=
    (Except.ok.inj ((filterExcept_true_id _ a1 (fun x => rfl)).symm.trans ha2x)).symm
  have ea3 : l1 = a2 :=
    (Except.ok.inj ((filterExcept_true_id _ a2 (fun x => rfl)).symm.trans ha3x)).symm
  have ha : filterExcept (passName fuel (some n)) (pipelineSized units) = .ok l1 := by
    rw [ea3, ea2]; exact ha1x
  obtain ⟨b1, b2, hb1, hb2, hb3⟩ :=
    pipelineFiltered_ok fuel ⟨none, some b, none⟩ units l2 h2
  have hb1x : filterExcept (passName fuel none) (pipelineSized units) = .ok b1 := hb1
  have hb2x : filterExcept (passBase fuel (some b)) b1 = .ok b2 := hb2
  have hb3x : filterExcept (passContains fuel none) b2 = .ok l2 := hb3
  have eb1 : b1 = pipelineSized units :=
    (Except.ok.inj ((filterExcept_true_id _ _ (fun x => rfl)).symm.trans hb1x)).symm
  have eb3 : l2 = b2 :=
    (Except.ok.inj ((filterExcept_true_id _ b2 (fun x => rfl)).symm.trans hb3x)).symm
  have hb : filterExcept (passBase fuel (some b)) (pipelineSized units) = .ok l2 := by
    rw [eb3]; rw [eb1] at hb2x; exact hb2x
  obtain ⟨c1, c2, hc1, hc2, hc3⟩ :=
    pipelineFiltered_ok fuel ⟨none, none, some c⟩ units l3 h3
  have hc1x : filterExcept (passName fuel none) (pipelineSized units) = .ok c1 := hc1
  have hc2x : filterExcept (passBase fuel none) c1 = .ok c2 := hc2
  have hc3x : filterExcept (passContains fuel (some c)) c2 = .ok l3 := hc3
  have ec1 : c1 = pipelineSized units :=
    (Except.ok.inj ((filterExcept_true_id _ _ (fun x => rfl)).symm.trans hc1x)).symm
  have ec2 : c2 = c1 :=
    (Except.ok.inj ((filterExcept_true_id _ c1 (fun x => rfl)).symm.trans hc2x)).symm
  have hc : filterExcept (passContains fuel (some c)) (pipelineSized units) = .ok l3 := by
    rw [ec2, ec1] at hc3x; exact hc3x
  have hBok : ∀ x ∈ pipelineSized units, ∃ bb, passBase fuel (some b) x = .ok bb :=
    filterExcept_ok_forall _ _ _ hb
  have hCok : ∀ x ∈ pipelineSized units, ∃ bb, passContains fuel (some c) x = .ok bb :=
    filterExcept_ok_forall _ _ _ hc
  have hsub1 : ∀ x ∈ l1, x ∈ pipelineSized units := fun x hx =>
    ((filterExcept_mem _ _ _ ha x).mp hx).1
  have hst2 : filterExcept (passBase fuel (some b)) l1 =
      .ok (l1.filter (passedTrue (passBase fuel (some b)))) :=
    filterExcept_eq _ _ (fun x hx => hBok x (hsub1 x hx))
  have hsub12 : ∀ x ∈ l1.filter (passedTrue (passBase fuel (some b))),
      x ∈ pipelineSized units := fun x hx => hsub1 x (List.mem_filter.mp hx).1
  have hst3 : filterExcept (passContains fuel (some c))
        (l1.filter (passedTrue (passBase fuel (some b)))) =
      .ok ((l1.filter (passedTrue (passBase fuel (some b)))).filter
        (passedTrue (passContains fuel (some c)))) :=
    filterExcept_eq _ _ (fun x hx => hCok x (hsub12 x hx))
  refine ⟨(l1.filter (passedTrue (passBase fuel (some b)))).filter
    (passedTrue (passContains fuel (some c))), ?_, ?_⟩
  · show (match filterExcept (passName fuel (some n)) (pipelineSized units) with
      | Except.error msg => (Except.error msg : Except String (List ContextEntry))
      | Except.ok la =>
        match filterExcept (passBase fuel (some b)) la with
        | Except.error msg => Except.error msg
        | Except.ok lb => filterExcept (passContains fuel (some c)) lb) = _
    rw [ha]
    show (match filterExcept (passBase fuel (some b)) l1 with
      | Except.error msg => (Except.error msg : Except String (List ContextEntry))
      | Except.ok lb => filterExcept (passContains fuel (some c)) lb) = _
    rw [hst2]
    show filterExcept (passContains fuel (some c))
      (l1.filter (passedTrue (passBase fuel (some b)))) = _
    rw [hst3]
  · intro e
    have m1 := filterExcept_mem _ _ _ ha e
    have m2 := filterExcept_mem _ _ _ hb e
    have m3 := filterExcept_mem _ _ _ hc e
    constructor
    · intro hx
      have hx12 := (List.mem_filter.mp hx).1
      have hxC := (List.mem_filter.mp hx).2
      have hx1 := (List.mem_filter.mp hx12).1
      have hxB := (List.mem_filter.mp hx12).2
      refine ⟨hx1, ?_, ?_⟩
      · exact m2.mpr ⟨hsub1 e hx1, (passedTrue_iff _ e).mp hxB⟩
      · exact m3.mpr ⟨hsub1 e hx1, (passedTrue_iff _ e).mp hxC⟩
    · rintro ⟨hx1, hx2, hx3⟩
      refine List.mem_filter.mpr ⟨List.mem_filter.mpr ⟨hx1, ?_⟩, ?_⟩
      · exact (passedTrue_iff _ e).mpr (m2.mp hx2).2
      · exact (passedTrue_iff _ e).mpr (m3.mp hx3).2

/-- C3 (counterexample): on a unit with two classes both named X — the first
bare, the second with base B and a C-typed member — the combined run
prints the second class's block, but the --name X run prints the first
class's block (deduplication keeps the first X), so the printed output of
the combined run is not the intersection of the three single-filter runs'
outputs. -/
theorem claim_C3_counterexample :
    dump_file 9 sfAllXBC [cuX] = .ok [blockX2]
    ∧ dump_file 9 sfNameX [cuX] = .ok [blockX1]
    ∧ dump_file 9 sfBaseB [cuX] = .ok [blockX2]
    ∧ dump_file 9 sfContainsC [cuX] = .ok [blockX2]
    ∧ blockX2 ∈ [blockX2]
    ∧ ¬ (blockX2 ∈ [blockX1] ∧ blockX2 ∈ [blockX2] ∧ blockX2 ∈ [blockX2]) :=
  ⟨rfl, rfl, rfl, rfl, List.mem_singleton.mpr rfl,
   fun h => absurd (List.mem_singleton.mp h.1) (by decide)⟩

theorem claim_C3_witness :
    pipelineFiltered 9 ⟨some "X", none, none⟩ [cuX] = .ok [eX1, eX2]
    ∧ pipelineFiltered 9 ⟨none, some "B", none⟩ [cuX] = .ok [eX2]
    ∧ pipelineFiltered 9 ⟨none, none, some "C"⟩ [cuX] = .ok [eX2]
    ∧ ∃ lAll, pipelineFiltered 9 ⟨some "X", some "B", some "C"⟩ [cuX] = .ok lAll ∧
        ∀ e, e ∈ lAll ↔ (e ∈ [eX1, eX2] ∧ e ∈ [eX2] ∧ e ∈ [eX2]) :=
  ⟨rfl, rfl, rfl,
   claim_C3_amended 9 [cuX] "X" "B" "C" [eX1, eX2] [eX2] [eX2] rfl rfl rfl⟩

theorem nameF_succ_direct (fuel : Nat) (e : ContextEntry) (s : String)
    (h : e.name_from_tag = some s) : e.nameF (fuel + 1) = .ok (some s) := by
  simp [ContextEntry.nameF, h]

theorem nameF_succ_pointer (fuel : Nat) (e pointee : ContextEntry) (s : String)
    (h1 : e.name_from_tag = none) (h2 : e.tag = Tag.pointer_type)
    (h3 : e.classOf = .ok (some pointee)) (h4 : pointee.nameF fuel = .ok (some s)) :
    e.nameF (fuel + 1) = .ok (some (s ++ "*")) := by
  simp [ContextEntry.nameF, h1, h2, h3, h4]

theorem nameF_succ_nonpointer (fuel : Nat) (e : ContextEntry)
    (h1 : e.name_from_tag = none) (h2 : e.tag ≠ Tag.pointer_type) :
    e.nameF (fuel + 1) = .ok none := by
  simp [ContextEntry.nameF, h1, h2]

theorem size_bytes_pointer_default (e : ContextEntry)
    (h1 : e.entry.byteSizeAttr = none) (h2 : e.tag = Tag.pointer_type) :
    e.size_bytes = some usize_bytes := by
  simp [ContextEntry.size_bytes, h1, h2]

theorem expand_not_typedef (fuel : Nat) (e : ContextEntry) (h : e.tag ≠ Tag.typedef) :
    e.expandTypeDefsF (fuel + 1) = .ok e := by
  simp [ContextEntry.expandTypeDefsF, h]

theorem fieldDeclaredType_eq (fuel : Nat) (child cls : ContextEntry)
    (h1 : child.classOf = .ok (some cls)) :
    fieldDeclaredType fuel child = cls.expandTypeDefsF fuel := by
  simp [fieldDeclaredType, h1]

theorem renderField_eq (fuel : Nat) (child cls : ContextEntry)
    (clsName fieldName : Option String) (start : Nat)
    (h1 : fieldDeclaredType fuel child = .ok cls)
    (h2 : cls.nameF fuel = .ok clsName)
    (h3 : (if child.tag = Tag.inheritance then Except.ok (some "_base_class")
           else child.nameF fuel) = Except.ok fieldName)
    (h4 : child.member_location = some start) :
    renderField fuel child = .ok ("    " ++ clsName.getD "unknown_class" ++ " "
      ++ (if child.tag = Tag.inheritance then "_base_class"
          else fieldName.getD "unknown_name")
      ++ "; // " ++ toString (cls.size_bytes.getD 0) ++ " bytes, "
      ++ toString start ++ "-"
      ++ toString ((start + cls.size_bytes.getD 0) % usizeModulus)) := by
  simp [renderField, h1, h2, h3, h4]

theorem renderField_err_decl (fuel : Nat) (child : ContextEntry) (m : String)
    (h1 : fieldDeclaredType fuel child = .error m) :
    renderField fuel child = .error m := by
  simp [renderField, h1]

theorem renderField_err_clsname (fuel : Nat) (child cls : ContextEntry) (m : String)
    (h1 : fieldDeclaredType fuel child = .ok cls) (h2 : cls.nameF fuel = .error m) :
    renderField fuel child = .error m := by
  simp [renderField, h1, h2]

theorem renderField_err_fname (fuel : Nat) (child cls : ContextEntry)
    (clsName : Option String) (m : String)
    (h1 : fieldDeclaredType fuel child = .ok cls)
    (h2 : cls.nameF fuel = .ok clsName)
    (h3 : (if child.tag = Tag.inheritance then Except.ok (some "_base_class")
           else child.nameF fuel) = Except.error m) :
    renderField fuel child = .error m := by
  simp [renderField, h1, h2, h3]

theorem renderField_err_loc (fuel : Nat) (child cls : ContextEntry)
    (clsName fieldName : Option String)
    (h1 : fieldDeclaredType fuel child = .ok cls)
    (h2 : cls.nameF fuel = .ok clsName)
    (h3 : (if child.tag = Tag.inheritance then Except.ok (some "_base_class")
           else child.nameF fuel) = Except.ok fieldName)
    (h4 : child.member_location = none) :
    ∃ m, renderField fuel child = .error m := by
  refine ⟨"unwrap on None (member_location)", ?_⟩
  simp [renderField, h1, h2, h3, h4]

/-- C7 (amended): for every printed field — a member or inheritance child
carrying a data_member_location, named or not — whose typedef-expanded
declared type (child.class().unwrap().expand_type_defs()) is a
pointer_type with no direct DW_AT_name, the printed type name is the
pointee's resolved name with a trailing asterisk, and because a
pointer_type without DW_AT_byte_size falls back to the host pointer
width, the printed size is 8 (the end offset needs the usize sum not to
overflow, as for every field).  Without the no-direct-name condition the
claim fails: name() tries the direct DW_AT_name first; see the
counterexample. -/
theorem claim_C7_amended (fuel : Nat) (child cls pointee : ContextEntry) (s : String)
    (start : Nat)
    (hdecl : fieldDeclaredType (fuel + 1) child = .ok cls)
    (htag : cls.tag = Tag.pointer_type)
    (hnoname : cls.entry.nameAttr = none)
    (hnosize : cls.entry.byteSizeAttr = none)
    (hp : cls.classOf = .ok (some pointee))
    (hpname : pointee.nameF fuel = .ok (some s))
    (hctag : child.tag = Tag.member ∨ child.tag = Tag.inheritance)
    (hcloc : child.member_location = some start)
    (hov : start + usize_bytes < usizeModulus) :
    cls.size_bytes = some usize_bytes
    ∧ cls.nameF (fuel + 1) = .ok (some (s ++ "*"))
    ∧ ∃ fname, renderField (fuel + 1) child = .ok
        ("    " ++ (s ++ "*") ++ " " ++ fname ++ "; // " ++ toString usize_bytes
          ++ " bytes, " ++ toString start ++ "-" ++ toString (start + usize_bytes)) := by
  have hsize := size_bytes_pointer_default cls hnosize htag
  have hname2 := nameF_succ_pointer fuel cls pointee s hnoname htag hp hpname
  refine ⟨hsize, hname2, ?_⟩
  rcases hctag with hmem | hin
  · have hne : child.tag ≠ Tag.inheritance := by rw [hmem]; decide
    have hcn : child.nameF (fuel + 1) = .ok child.entry.nameAttr := by
      cases hna : child.entry.nameAttr with
      | some f => exact nameF_succ_direct fuel child f hna
      | none => exact nameF_succ_nonpointer fuel child hna (by rw [hmem]; decide)
    have hfname : (if child.tag = Tag.inheritance then Except.ok (some "_base_class")
        else child.nameF (fuel + 1)) = Except.ok child.entry.nameAttr := by
      rw [if_neg hne]
      exact hcn
    refine ⟨(child.entry.nameAttr).getD "unknown_name", ?_⟩
    rw [renderField_eq (fuel + 1) child cls (some (s ++ "*")) child.entry.nameAttr start
      hdecl hname2 hfname hcloc]
    simp [hne, hsize, Nat.mod_eq_of_lt hov]
  · have hfname : (if child.tag = Tag.inheritance then Except.ok (some "_base_class")
        else child.nameF (fuel + 1)) = Except.ok (some "_base_class") := by
      rw [if_pos hin]
    refine ⟨"_base_class", ?_⟩
    rw [renderField_eq (fuel + 1) child cls (some (s ++ "*")) (some "_base_class") start
      hdecl hname2 hfname hcloc]
    simp [hin, hsize, Nat.mod_eq_of_lt hov]

/-- C7 (counterexample): a pointer_type DIE carrying its own DW_AT_name
("NamedPtr") pointing at a class named T: the printed type name is the
pointer's direct name, not the pointee's name with a trailing asterisk,
because name() tries the direct DW_AT_name attribute first. -/
theorem claim_C7_counterexample :
    fieldDeclaredType 9 ePtrM = .ok eNamedPtr
    ∧ eNamedPtr.tag = Tag.pointer_type
    ∧ eNamedPtr.entry.byteSizeAttr = none
    ∧ eNamedPtr.classOf = .ok (some eT)
    ∧ eT.nameF 9 = .ok (some "T")
    ∧ renderField 9 ePtrM = .ok "    NamedPtr next; // 8 bytes, 0-8"
    ∧ "    NamedPtr next; // 8 bytes, 0-8" ≠ "    T* next; // 8 bytes, 0-8" :=
  ⟨rfl, rfl, rfl, rfl, rfl, rfl, by decide⟩

theorem claim_C7_witness :
    fieldDeclaredType 9 eNodeM = .ok eAnonPtr
    ∧ fieldDeclaredType 9 eHolderInh = .ok eAnonPtr
    ∧ fieldDeclaredType 9 eUnnamedM = .ok eAnonPtr
    ∧ eAnonPtr.classOf = .ok (some eNode)
    ∧ eNode.nameF 8 = .ok (some "Node")
    ∧ (eAnonPtr.size_bytes = some usize_bytes
      ∧ eAnonPtr.nameF 9 = .ok (some ("Node" ++ "*"))
      ∧ ∃ fname, renderField 9 eNodeM = .ok
          ("    " ++ ("Node" ++ "*") ++ " " ++ fname ++ "; // " ++ toString usize_bytes
            ++ " bytes, " ++ toString 0 ++ "-" ++ toString (0 + usize_bytes)))
    ∧ (eAnonPtr.size_bytes = some usize_bytes
      ∧ eAnonPtr.nameF 9 = .ok (some ("Node" ++ "*"))
      ∧ ∃ fname, renderField 9 eHolderInh = .ok
          ("    " ++ ("Node" ++ "*") ++ " " ++ fname ++ "; // " ++ toString usize_bytes
            ++ " bytes, " ++ toString 0 ++ "-" ++ toString (0 + usize_bytes)))
    ∧ (eAnonPtr.size_bytes = some usize_bytes
      ∧ eAnonPtr.nameF 9 = .ok (some ("Node" ++ "*"))
      ∧ ∃ fname, renderField 9 eUnnamedM = .ok
          ("    " ++ ("Node" ++ "*") ++ " " ++ fname ++ "; // " ++ toString usize_bytes
            ++ " bytes, " ++ toString 0 ++ "-" ++ toString (0 + usize_bytes))) :=
  ⟨rfl, rfl, rfl, rfl, rfl,
   claim_C7_amended 8 eNodeM eAnonPtr eNode "Node" 0
     rfl rfl rfl rfl rfl rfl (Or.inl rfl) rfl (by decide),
   claim_C7_amended 8 eHolderInh eAnonPtr eNode "Node" 0
     rfl rfl rfl rfl rfl rfl (Or.inr rfl) rfl (by decide),
   claim_C7_amended 8 eUnnamedM eAnonPtr eNode "Node" 0
     rfl rfl rfl rfl rfl rfl (Or.inl rfl) rfl (by decide)⟩

/-- C8 (amended): every successfully printed field line shows the member's
data_member_location as its start and, as its end, the usize sum of the
start and the printed size (the declared type's size or 0 when unknown) —
the sum reduced modulo 2^64, since the addition of src/main.rs:414 wraps
in a release build (and aborts a debug build) on overflow.  Whenever the
sum does not overflow usize, end minus start equals the printed size.
Both bounds are rendered with toString on Nat, i.e. in base 10. -/
theorem claim_C8 (fuel : Nat) (child : ContextEntry) (line : String)
    (h : renderField fuel child = .ok line) :
    ∃ cls tname fname start,
      fieldDeclaredType fuel child = .ok cls
      ∧ child.member_location = some start
      ∧ line = "    " ++ tname ++ " " ++ fname ++ "; // "
          ++ toString (cls.size_bytes.getD 0) ++ " bytes, " ++ toString start ++ "-"
          ++ toString ((start + cls.size_bytes.getD 0) % usizeModulus)
      ∧ (start + cls.size_bytes.getD 0 < usizeModulus →
          (start + cls.size_bytes.getD 0) % usizeModulus - start =
            cls.size_bytes.getD 0) := by
  cases h1 : fieldDeclaredType fuel child with
  | error m => rw [renderField_err_decl fuel child m h1] at h; cases h
  | ok cls =>
    cases h2 : cls.nameF fuel with
    | error m => rw [renderField_err_clsname fuel child cls m h1 h2] at h; cases h
    | ok clsName =>
      cases h3 : (if child.tag = Tag.inheritance then Except.ok (some "_base_class")
          else child.nameF fuel) with
      | error m => rw [renderField_err_fname fuel child cls clsName m h1 h2 h3] at h; cases h
      | ok fieldName =>
        cases h4 : child.member_location with
        | none =>
          obtain ⟨m, hm⟩ := renderField_err_loc fuel child cls clsName fieldName h1 h2 h3 h4
          rw [hm] at h
          cases h
        | some start =>
          rw [renderField_eq fuel child cls clsName fieldName start h1 h2 h3 h4] at h
          cases h
          exact ⟨cls, clsName.getD "unknown_class",
            (if child.tag = Tag.inheritance then "_base_class"
             else fieldName.getD "unknown_name"), start, rfl, rfl, rfl,
            fun hov => by rw [Nat.mod_eq_of_lt hov]; omega⟩

/-- C8 (counterexample): a member at data_member_location 2^64 - 4 whose
type is an 8-byte pointer overflows the usize addition of
src/main.rs:414.  A release build wraps: the printed end is 4, so the
printed end is not start plus the printed size and end minus start is
not the printed size (a debug build aborts at the same input).  The
unconditional identity of the claim therefore fails on the program. -/
theorem claim_C8_counterexample :
    eOvfM.member_location = some (2 ^ 64 - 4)
    ∧ renderField 9 eOvfM = .ok "    Node* ovf; // 8 bytes, 18446744073709551612-4"
    ∧ ((2 ^ 64 - 4) + 8) % usizeModulus = 4
    ∧ (2 ^ 64 - 4) + 8 ≠ 4
    ∧ (4 : Nat) - (2 ^ 64 - 4) ≠ 8 :=
  ⟨rfl, rfl, by decide, by decide, by decide⟩

theorem claim_C8_witness :
    renderField 9 eXz = .ok "    C z; // 4 bytes, 4-8"
    ∧ ∃ cls tname fname start,
        fieldDeclaredType 9 eXz = .ok cls
        ∧ eXz.member_location = some start
        ∧ "    C z; // 4 bytes, 4-8" = "    " ++ tname ++ " " ++ fname ++ "; // "
            ++ toString (cls.size_bytes.getD 0) ++ " bytes, " ++ toString start ++ "-"
            ++ toString ((start + cls.size_bytes.getD 0) % usizeModulus)
        ∧ (start + cls.size_bytes.getD 0 < usizeModulus →
            (start + cls.size_bytes.getD 0) % usizeModulus - start =
              cls.size_bytes.getD 0) :=
  ⟨rfl, claim_C8 9 eXz "    C z; // 4 bytes, 4-8" rfl⟩
